import Mathlib

/-!
Verification of the Virtual Lab core of the minilabo firmware
(`src/virtual_lab/`): expression compiler and evaluator
(`MathExpression.cpp`), signal synthesis (`VirtualSignal.cpp`), the signal
registry (`VirtualWorkspace.cpp`), and the instrument facades
(`Oscilloscope.cpp`, `Multimeter.cpp`, `FunctionGenerator.cpp`).

Modelling conventions
- IEEE-754 single/double values are modelled by `F`: an exact rational
  (`F.num q`) or NaN (`F.nan`).  Finite-precision rounding, overflow,
  signed zeroes and infinities are outside the modelled range: every value
  the stated theorems evaluate is a small rational that is exact in
  `float`, and every comparison they decide has ample margin, so rounding
  never changes an outcome below.
- Arithmetic on `F` follows IEEE semantics restricted to that range: any
  NaN operand makes `+ - * /` produce NaN, and every ordered comparison
  involving NaN is false.  `powf` follows C99 Annex F / IEEE-754 `pow`,
  including the two exceptions `pow(x, 0) = 1` and `pow(1, y) = 1` that
  hold even for a NaN operand.
- Transcendental library calls (`sinf`, `cosf`, `logf`, irrational square
  roots, non-integer powers of a positive base) return irrational reals
  that have no exact rational image; they are modelled by total stand-in
  functions whose values no stated theorem depends on.
- Recursion through the workspace (a Math signal sampling its bound
  signals) is modelled with explicit fuel; exhausting the fuel is reported
  by a dedicated `diverge` outcome, distinct from the source's boolean
  failure, so that unbounded recursion in the source is visible in the
  model as divergence at every fuel.
-/

/- The Batteries rational operations are `@[irreducible]`, which blocks
kernel evaluation of the executable model on concrete inputs; proofs below
evaluate concrete runs by `rfl`/`decide`, so the operations are restored
to their definitional behaviour. -/
set_option allowUnsafeReducibility true in
attribute [semireducible] Rat.add Rat.mul Rat.sub Rat.inv Rat.ofScientific

namespace MiniLabo

/-- Model of a C `float`/`double` value: an exact rational or NaN.  Signed
zeroes, infinities and rounding are outside the modelled range (see the
file header). -/
inductive F where
  | num (q : ℚ)
  | nan
deriving DecidableEq

/-- Model of C `isnan`. -/
def F.isnan : F → Bool
  | .num _ => false
  | .nan => true

/-- IEEE addition on the modelled range: NaN absorbs, finite values exact. -/
def fadd : F → F → F
  | .num a, .num b => .num (a + b)
  | _, _ => .nan

/-- IEEE subtraction on the modelled range. -/
def fsub : F → F → F
  | .num a, .num b => .num (a - b)
  | _, _ => .nan

/-- IEEE multiplication on the modelled range. -/
def fmul : F → F → F
  | .num a, .num b => .num (a * b)
  | _, _ => .nan

/-- IEEE division on the modelled range.  A zero divisor would give an
infinity in C, which is outside the modelled range; every call site in the
embedded code either guards the divisor against zero (`applyBinary`) or
passes a divisor already checked positive, so the zero branch is
unreachable and is mapped to NaN. -/
def fdiv : F → F → F
  | .num a, .num b => if b = 0 then .nan else .num (a / b)
  | _, _ => .nan

/-- IEEE negation. -/
def fneg : F → F
  | .num a => .num (-a)
  | .nan => .nan

/-- Model of the C `<` on floats: false whenever an operand is NaN. -/
def flt : F → F → Bool
  | .num a, .num b => decide (a < b)
  | _, _ => false

/-- Model of the C `<=` on floats: false whenever an operand is NaN. -/
def fle : F → F → Bool
  | .num a, .num b => decide (a ≤ b)
  | _, _ => false

/-- Model of the C `>` on floats. -/
def fgt (x y : F) : Bool := flt y x

/-- Model of the C `>=` on floats. -/
def fge (x y : F) : Bool := fle y x

/-- Model of the C `==` on floats: false whenever an operand is NaN. -/
def feq : F → F → Bool
  | .num a, .num b => decide (a = b)
  | _, _ => false

/-- Exact rational square root where one exists (numerator and denominator
of the reduced fraction both perfect squares); the stand-in value 0 on
every other input, where C `sqrt` returns an irrational real that has no
exact rational image.  No stated theorem evaluates the stand-in branch. -/
def ratSqrt (q : ℚ) : ℚ :=
  let n := Nat.sqrt q.num.toNat
  let d := Nat.sqrt q.den
  if (n * n : ℤ) = q.num ∧ d * d = q.den then (n : ℚ) / (d : ℚ) else 0

/-- Lift a rational function to `F`, propagating NaN (as every C `libm`
one-argument function in this code base does for a NaN argument). -/
def liftNum (f : ℚ → ℚ) : F → F
  | .num q => .num (f q)
  | .nan => .nan

/-- Stand-in for the transcendental one-argument `libm` functions (`sinf`,
`cosf`, `tanf`, `asinf`, `acosf`, `atanf`, `expf`, `logf`, `log10f`):
their finite values are irrational in general and no stated theorem
depends on them.  NaN still propagates via `liftNum`. -/
def transStand : ℚ → ℚ := fun _ => 0

/-- Model of C99 `powf` on the modelled range (C99 Annex F, F.9.4.4 and
IEEE-754 `pow`):
`pow(x, ±0) = 1` for every `x`, even NaN; `pow(1, y) = 1` for every `y`,
even NaN; otherwise a NaN operand gives NaN; a negative base with a
non-integer exponent gives NaN (domain error); an integer exponent gives
the exact rational power.  `pow(0, negative)` is an infinity in C and a
positive base with a non-integer exponent is irrational: both are outside
the modelled range and mapped to NaN; no stated theorem evaluates either
branch. -/
def fpow (x y : F) : F :=
  match x, y with
  | x, F.num b =>
    if b = 0 then F.num 1
    else
      match x with
      | F.nan => F.nan
      | F.num a =>
        if a = 1 then F.num 1
        else if b.den = 1 then
          if a = 0 ∧ b < 0 then F.nan else F.num (a ^ b.num)
        else F.nan
  | F.num a, F.nan => if a = 1 then F.num 1 else F.nan
  | F.nan, F.nan => F.nan

/-- Model of C `floorf`. -/
def ffloor : F → F := liftNum (fun q => (⌊q⌋ : ℚ))

/-- Model of C `ceilf`. -/
def fceil : F → F := liftNum (fun q => (⌈q⌉ : ℚ))

/-- Model of C `roundf`: rounds half away from zero. -/
def fround : F → F :=
  liftNum (fun q => if q < 0 then -((⌊-q + 1/2⌋ : ℤ) : ℚ) else ((⌊q + 1/2⌋ : ℤ) : ℚ))

/-- Model of C `fabsf`. -/
def fabs : F → F := liftNum (fun q => |q|)

/-- Model of C `sqrtf`/`sqrt` for a non-negative or NaN argument (every
call site guards negative arguments). -/
def fsqrt : F → F := liftNum ratSqrt

/-!  Expression AST (`MathExpression.cpp`, `struct Node`).  The five node
kinds of the source's tagged `Node` type; children are owned in order. -/

/-- Expression AST node (`Node` in `MathExpression.cpp`). -/
inductive Expr where
  | const (v : F)
  | var (name : String)
  | unary (op : Char) (child : Expr)
  | binary (op : Char) (left right : Expr)
  | fn (name : String) (args : List Expr)

/-- Model of `applyBinary` (`MathExpression.cpp:264`): the division guard
`rhs == 0.0f ? NAN : lhs / rhs` makes division by exact zero a NaN, not a
failure; the default branch returns NaN. -/
def applyBinary (op : Char) (lhs rhs : F) : F :=
  if op = '+' then fadd lhs rhs
  else if op = '-' then fsub lhs rhs
  else if op = '*' then fmul lhs rhs
  else if op = '/' then (if feq rhs (F.num 0) then F.nan else fdiv lhs rhs)
  else if op = '^' then fpow lhs rhs
  else F.nan

/-- Model of `applyUnary` (`MathExpression.cpp:281`). -/
def applyUnary (op : Char) (v : F) : F :=
  if op = '-' then fneg v else v

/-- ASCII lowercase of one character (C `tolower` and Arduino
`String::toLowerCase`, which are ASCII on this target). -/
def lowerChar (c : Char) : Char :=
  if 'A' ≤ c ∧ c ≤ 'Z' then Char.ofNat (c.toNat + 32) else c

/-- ASCII lowercase of a string. -/
def lowerStr (s : String) : String := (s.data.map lowerChar).asString

/-- Model of `evaluateFunction` (`MathExpression.cpp:290`): the fixed
name-to-behaviour table.  Returns `none` exactly where the source returns
`false`: unknown name, or wrong arity for a known name.  Note that `sum`
has no emptiness check in the source (unlike `min`, `max`, `avg`/`mean`),
so `sum` of no arguments succeeds with 0. -/
def evaluateFunction (name : String) (args : List F) : Option F :=
  let lower := lowerStr name
  if lower = "sin" then
    match args with | [a] => some (liftNum transStand a) | _ => none
  else if lower = "cos" then
    match args with | [a] => some (liftNum transStand a) | _ => none
  else if lower = "tan" then
    match args with | [a] => some (liftNum transStand a) | _ => none
  else if lower = "asin" then
    match args with | [a] => some (liftNum transStand a) | _ => none
  else if lower = "acos" then
    match args with | [a] => some (liftNum transStand a) | _ => none
  else if lower = "atan" then
    match args with | [a] => some (liftNum transStand a) | _ => none
  else if lower = "sqrt" then
    match args with
    | [a] => some (if flt a (F.num 0) then F.nan else fsqrt a)
    | _ => none
  else if lower = "abs" then
    match args with | [a] => some (fabs a) | _ => none
  else if lower = "exp" then
    match args with | [a] => some (liftNum transStand a) | _ => none
  else if lower = "ln" ∨ lower = "log" then
    match args with
    | [a] => some (if fle a (F.num 0) then F.nan else liftNum transStand a)
    | _ => none
  else if lower = "log10" then
    match args with
    | [a] => some (if fle a (F.num 0) then F.nan else liftNum transStand a)
    | _ => none
  else if lower = "floor" then
    match args with | [a] => some (ffloor a) | _ => none
  else if lower = "ceil" then
    match args with | [a] => some (fceil a) | _ => none
  else if lower = "round" then
    match args with | [a] => some (fround a) | _ => none
  else if lower = "min" then
    match args with
    | [] => none
    | a :: rest => some (rest.foldl (fun acc v => if flt v acc then v else acc) a)
  else if lower = "max" then
    match args with
    | [] => none
    | a :: rest => some (rest.foldl (fun acc v => if fgt v acc then v else acc) a)
  else if lower = "avg" ∨ lower = "mean" then
    match args with
    | [] => none
    | _ =>
      some (fdiv (args.foldl fadd (F.num 0)) (F.num (args.length : ℚ)))
  else if lower = "sum" then
    some (args.foldl fadd (F.num 0))
  else if lower = "clamp" then
    match args with
    | [v, lo, hi] =>
      let p := if fgt lo hi then (hi, lo) else (lo, hi)
      let v1 := if flt v p.1 then p.1 else v
      some (if fgt v1 p.2 then p.2 else v1)
    | _ => none
  else if lower = "pow" then
    match args with | [a, b] => some (fpow a b) | _ => none
  else none

/-- Outcome of one evaluation/sampling step.  `ok`/`fail` mirror the
source's boolean-with-out-parameter convention; `diverge` is the fuel
model's marker for a computation the source would never return from. -/
inductive EvalRes where
  | ok (v : F)
  | fail
  | diverge
deriving DecidableEq

/-- Outcome of evaluating a Function node's argument list. -/
inductive ArgsRes where
  | ok (vs : List F)
  | fail
  | diverge
deriving DecidableEq

mutual

/-- Model of `MathExpression::evaluateNode` (`MathExpression.cpp:454`):
read-only tree walk with early return on the first hard failure; the
variable resolver is the caller-supplied closure. -/
def evalNode (resolver : String → EvalRes) : Expr → EvalRes
  | .const v => .ok v
  | .var name => resolver name
  | .unary op child =>
    match evalNode resolver child with
    | .ok v => .ok (applyUnary op v)
    | .fail => .fail
    | .diverge => .diverge
  | .binary op l r =>
    match evalNode resolver l with
    | .ok vl =>
      match evalNode resolver r with
      | .ok vr => .ok (applyBinary op vl vr)
      | .fail => .fail
      | .diverge => .diverge
    | .fail => .fail
    | .diverge => .diverge
  | .fn name args =>
    match evalArgs resolver args with
    | .ok vs =>
      match evaluateFunction name vs with
      | some v => .ok v
      | none => .fail
    | .fail => .fail
    | .diverge => .diverge

/-- Argument-list evaluation of a Function node: children are evaluated in
order with early return on the first failure, as in the source loop. -/
def evalArgs (resolver : String → EvalRes) : List Expr → ArgsRes
  | [] => .ok []
  | e :: rest =>
    match evalNode resolver e with
    | .ok v =>
      match evalArgs resolver rest with
      | .ok vs => .ok (v :: vs)
      | .fail => .fail
      | .diverge => .diverge
    | .fail => .fail
    | .diverge => .diverge

end

/-!  Recursive-descent parser (`MathExpression.cpp`, `class Parser`).
The source tracks an absolute character position in the input and a
set-once error string; the model threads the position and reports the
first error through `Except`.  The recursion of the grammar is bounded by
explicit fuel; `compile` passes a budget that is ample for the grammar
(each descent chain of the five precedence levels consumes input), and no
stated theorem quantifies over parser inputs, so fuel adequacy never needs
a proof.  `registerVariable` (the deduplicated variable list collected at
compile time) is not modelled: no stated claim concerns it. -/

/-- The sentinel the source's `peek` returns past the end of input. -/
def nullChar : Char := Char.ofNat 0

/-- Model of `Parser::peek`: the character at `pos`, or NUL past the end.
Inputs containing a literal NUL are outside the modelled range (the source
receives C strings). -/
def peekC (src : List Char) (pos : Nat) : Char :=
  match src.get? pos with
  | some c => c
  | none => nullChar

/-- Model of C `isspace` on ASCII. -/
def cIsSpace (c : Char) : Bool :=
  c = ' ' || c = '\t' || c = '\n' || c = '\x0b' || c = '\x0c' || c = '\r'

/-- Model of C `isdigit` on ASCII. -/
def cIsDigit (c : Char) : Bool := c.isDigit

/-- Model of C `isalpha` on ASCII.  Multi-byte (non-ASCII) input is
outside the modelled range. -/
def cIsAlpha (c : Char) : Bool := c.isAlpha

/-- Model of C `isalnum` on ASCII. -/
def cIsAlnum (c : Char) : Bool := cIsAlpha c || cIsDigit c

/-- Length of the longest prefix on which `p` holds — the number of
characters one of the source's scan loops advances over. -/
def spanLen (p : Char → Bool) : List Char → Nat
  | [] => 0
  | c :: rest => if p c then spanLen p rest + 1 else 0

/-- Model of `Parser::skipWhitespace`: first non-space position at or
after `pos` (the `peek` past the end is NUL, which is not a space). -/
def skipWs (src : List Char) (pos : Nat) : Nat :=
  pos + spanLen cIsSpace (src.drop pos)

/-- First non-digit position at or after `pos` (the span `strtod` scans). -/
def digitsEnd (src : List Char) (pos : Nat) : Nat :=
  pos + spanLen cIsDigit (src.drop pos)

/-- First position at or after `pos` that is not an identifier character
(the scan loop of `Parser::parseIdentifier`). -/
def identEnd (src : List Char) (pos : Nat) : Nat :=
  pos + spanLen (fun c => cIsAlnum c || c = '_') (src.drop pos)

/-- Value of a string of decimal digits. -/
def digitsToNat (l : List Char) : ℕ :=
  l.foldl (fun a c => 10 * a + (c.toNat - 48)) 0

/-- Position-tagged message, as built by the source's
`String(...) + String(position + 1)` concatenations. -/
def posMsg (s : String) (p : Nat) : String := s ++ toString p

def invalidNumberMsg : String := "Invalid number at position "
def missingParenMsg : String := "Missing closing parenthesis at position "
def unexpectedTokenMsg : String := "Unexpected token at position "
def unexpectedEndMsg : String := "Unexpected end of expression"
def unexpectedCharMsg (c : Char) : String :=
  "Unexpected character \x27" ++ String.singleton c ++ "\x27"
def argListMsg : String := "Expected \x27,\x27 or \x27)\x27 in argument list at position "
/-- Marker for fuel exhaustion, an artifact of the fuel model: the budget
`compile` passes can never be exhausted on the inputs the stated theorems
evaluate. -/
def fuelMsg : String := "parser fuel exhausted"

/-- float32 rounding of the Arduino `PI` double constant assigned to the
`float` field (`node->constant = PI`). -/
def piF32 : ℚ := 13176795 / 4194304

/-- float32 rounding of `M_E` assigned to the `float` field. -/
def eF32 : ℚ := 2850325 / 1048576

/-- Model of `Parser::parseNumber` (`MathExpression.cpp:145`), i.e. of the
decimal forms `strtod` accepts from a position whose first character is a
digit or a dot: digits, optional fraction, optional exponent (consumed
only when at least one exponent digit follows, as `strtod` backtracks
otherwise).  Hexadecimal floats and the `inf`/`nan` spellings are outside
the modelled range (the latter two are unreachable: entry requires a digit
or a dot).  The double-to-float narrowing of the parsed value is exact on
the modelled range. -/
def pNumber (src : List Char) (pos : Nat) : Except String (Expr × Nat) :=
  let p1 := digitsEnd src pos
  let hasDot := peekC src p1 = '.'
  let fracStart := p1 + 1
  let p2 := if hasDot then digitsEnd src fracStart else p1
  let nInt := p1 - pos
  let nFrac := if hasDot then p2 - fracStart else 0
  if nInt = 0 ∧ nFrac = 0 then .error (posMsg invalidNumberMsg (pos + 1))
  else
    let intDigits := (src.drop pos).take nInt
    let fracDigits := (src.drop fracStart).take nFrac
    let mant : ℚ :=
      (digitsToNat intDigits : ℚ) + (digitsToNat fracDigits : ℚ) / (10 ^ nFrac : ℚ)
    let c := peekC src p2
    if c = 'e' ∨ c = 'E' then
      let signPos := p2 + 1
      let sc := peekC src signPos
      let dStart := if sc = '+' ∨ sc = '-' then signPos + 1 else signPos
      let p3 := digitsEnd src dStart
      if p3 = dStart then .ok (.const (F.num mant), p2)
      else
        let ev : ℤ := (digitsToNat ((src.drop dStart).take (p3 - dStart)) : ℤ)
        let ex : ℤ := if sc = '-' then -ev else ev
        .ok (.const (F.num (mant * (10 : ℚ) ^ ex)), p3)
    else .ok (.const (F.num mant), p2)

/-- The bundle of mutually recursive parse functions of `class Parser`.
The mutual recursion of the grammar is untangled by recursion on fuel:
`mkParsers src (fuel + 1)` builds every function of the bundle from the
bundle at `fuel`, so each embedded parse function decrements the fuel by
one on every (mutually) recursive call.  This keeps the recursion
structural, so concrete parses reduce inside the kernel. -/
structure ParserFns where
  expr : Nat → Except String (Expr × Nat)
  exprLoop : Expr → Nat → Except String (Expr × Nat)
  term : Nat → Except String (Expr × Nat)
  termLoop : Expr → Nat → Except String (Expr × Nat)
  power : Nat → Except String (Expr × Nat)
  unaryF : Nat → Except String (Expr × Nat)
  primaryF : Nat → Except String (Expr × Nat)
  identF : Nat → Except String (Expr × Nat)
  argsF : String → List Expr → Nat → Except String (Expr × Nat)

/-- The exhausted-fuel bundle (never reached at the budget `compile`
passes). -/
def failFns : ParserFns where
  expr := fun _ => .error fuelMsg
  exprLoop := fun _ _ => .error fuelMsg
  term := fun _ => .error fuelMsg
  termLoop := fun _ _ => .error fuelMsg
  power := fun _ => .error fuelMsg
  unaryF := fun _ => .error fuelMsg
  primaryF := fun _ => .error fuelMsg
  identF := fun _ => .error fuelMsg
  argsF := fun _ _ _ => .error fuelMsg

/-- The parse functions of `class Parser` (`MathExpression.cpp:25`) over
input `src`:
`expr`/`exprLoop` model `parseExpression` (`:45`) and its
additive-operator loop (left-associative `+`/`-`);
`term`/`termLoop` model `parseTerm` (`:65`) and its `*`-`/` loop;
`power` models `parsePower` (`:85`) — at most one `^` whose right operand
is again a power, hence right associativity;
`unaryF` models `parseUnary` (`:97`) — unary `+` skipped, unary `-` a
Unary node;
`primaryF` models `parsePrimary` (`:114`);
`identF` models `parseIdentifier` (`:160`) — the identifier is scanned,
lowercased for the call/constant checks, a call when `(` follows
(whitespace allowed before `(` but not between `(` and an immediate `)`,
exactly as the source's `match` calls behave), `pi`/`e` reserved
constants, otherwise a Variable node carrying the original spelling (the
compile-time variable list `registerVariable` collects is not modelled);
`argsF` models the argument-list loop of `parseIdentifier`.
Whitespace handling mirrors the source exactly: each loop leaves the
position past the whitespace it skipped before deciding to stop. -/
def mkParsers (src : List Char) : Nat → ParserFns
  | 0 => failFns
  | fuel + 1 =>
    let P := mkParsers src fuel
    { expr := fun pos =>
        match P.term pos with
        | .error e => .error e
        | .ok (node, p) => P.exprLoop node p
      exprLoop := fun node pos =>
        let p := skipWs src pos
        if peekC src p = '+' then
          match P.term (p + 1) with
          | .error e => .error e
          | .ok (rhs, p2) => P.exprLoop (.binary '+' node rhs) p2
        else if peekC src p = '-' then
          match P.term (p + 1) with
          | .error e => .error e
          | .ok (rhs, p2) => P.exprLoop (.binary '-' node rhs) p2
        else .ok (node, p)
      term := fun pos =>
        match P.power pos with
        | .error e => .error e
        | .ok (node, p) => P.termLoop node p
      termLoop := fun node pos =>
        let p := skipWs src pos
        if peekC src p = '*' then
          match P.power (p + 1) with
          | .error e => .error e
          | .ok (rhs, p2) => P.termLoop (.binary '*' node rhs) p2
        else if peekC src p = '/' then
          match P.power (p + 1) with
          | .error e => .error e
          | .ok (rhs, p2) => P.termLoop (.binary '/' node rhs) p2
        else .ok (node, p)
      power := fun pos =>
        match P.unaryF pos with
        | .error e => .error e
        | .ok (node, p0) =>
          let p := skipWs src p0
          if peekC src p = '^' then
            match P.power (p + 1) with
            | .error e => .error e
            | .ok (rhs, p2) => .ok (.binary '^' node rhs, p2)
          else .ok (node, p)
      unaryF := fun pos =>
        let p := skipWs src pos
        if peekC src p = '+' then P.unaryF (p + 1)
        else if peekC src p = '-' then
          match P.unaryF (p + 1) with
          | .error e => .error e
          | .ok (child, p2) => .ok (.unary '-' child, p2)
        else P.primaryF p
      primaryF := fun pos =>
        let p := skipWs src pos
        if peekC src p = '(' then
          match P.expr (p + 1) with
          | .error e => .error e
          | .ok (node, p2) =>
            let p3 := skipWs src p2
            if peekC src p3 = ')' then .ok (node, p3 + 1)
            else .error (posMsg missingParenMsg (p3 + 1))
        else if peekC src p = nullChar then .error unexpectedEndMsg
        else if cIsDigit (peekC src p) || peekC src p = '.' then pNumber src p
        else if cIsAlpha (peekC src p) || peekC src p = '_' then P.identF p
        else .error (unexpectedCharMsg (peekC src p))
      identF := fun pos =>
        let pEnd := identEnd src pos
        let ident := ((src.drop pos).take (pEnd - pos)).asString
        let lowered := lowerStr ident
        let p := skipWs src pEnd
        if peekC src p = '(' then
          if peekC src (p + 1) = ')' then .ok (.fn lowered [], p + 2)
          else P.argsF lowered [] (p + 1)
        else if lowered = "pi" then .ok (.const (F.num piF32), p)
        else if lowered = "e" then .ok (.const (F.num eF32), p)
        else .ok (.var ident, p)
      argsF := fun fname acc pos =>
        match P.expr pos with
        | .error e => .error e
        | .ok (arg, p1) =>
          let p2 := skipWs src p1
          if peekC src p2 = ')' then .ok (.fn fname (acc ++ [arg]), p2 + 1)
          else if peekC src p2 = ',' then P.argsF fname (acc ++ [arg]) (p2 + 1)
          else .error (posMsg argListMsg (p2 + 1)) }

/-- Model of `Parser::parseExpression` at a given fuel. -/
def pExpression (src : List Char) (fuel pos : Nat) : Except String (Expr × Nat) :=
  (mkParsers src fuel).expr pos

/-- Model of `Parser::parse` (`MathExpression.cpp:30`): leading and
trailing whitespace skipped, then the whole input must have been
consumed. -/
def parseTop (src : List Char) (fuel : Nat) : Except String Expr :=
  let p0 := skipWs src 0
  match pExpression src fuel p0 with
  | .error e => .error e
  | .ok (e, p) =>
    let p2 := skipWs src p
    if p2 = src.length then .ok e
    else .error (posMsg unexpectedTokenMsg (p2 + 1))

/-- Model of `MathExpression::compile` (`MathExpression.cpp:423`).  The
fuel budget is ample: each chain of the five precedence levels consumes at
least one input character before recursing again. -/
def compile (s : String) : Except String Expr :=
  parseTop s.data (10 * s.length + 10)

/-- Compile, then evaluate the compiled tree against a resolver — the
composition `MathExpression::compile` / `MathExpression::evaluate` the
claims exercise.  The outer `Except` is the compile outcome, the inner
`EvalRes` the evaluation outcome. -/
def compileEval (s : String) (resolver : String → EvalRes) : Except String EvalRes :=
  (compile s).map (evalNode resolver)

/-- A resolver with no bindings at all: every variable lookup hard-fails
(all claim expressions below are variable-free unless stated). -/
def noVars : String → EvalRes := fun _ => EvalRes.fail

/-!  Signals (`VirtualSignal.h` / `VirtualSignal.cpp`) and the Workspace
sampling entry point (`VirtualWorkspace.cpp`). -/

/-- `WaveformShape` (`VirtualSignal.h:56`). -/
inductive WaveShape where
  | dc
  | sine
  | square
  | triangle
  | sawtooth
  | noise
deriving DecidableEq

/-- `WaveformSettings` (`VirtualSignal.h:58`), fields as `float`s. -/
structure WaveSettings where
  amplitude : F
  offset : F
  frequency : F
  phase : F
  dutyCycle : F
  shape : WaveShape
deriving DecidableEq

/-- Model of `wrapPhase` (`VirtualSignal.cpp:29`): the source adds or
subtracts 1 until the value lies in `[0,1)`, which on an exact rational
equals subtracting the floor; a NaN phase passes both loop guards falsely
and is returned unchanged. -/
def wrapPhase : F → F
  | .num q => .num (q - ⌊q⌋)
  | .nan => .nan

/-- Stand-in for the per-call uniform draw of the Noise shape
(`random(-1000, 1001) / 1000.0f`): the source draws a fresh pseudorandom
value on every call (documented nondeterminism); no stated theorem
depends on the drawn value, so the model fixes it. -/
def noiseDraw : F := F.num 0

/-- Model of `WaveformSignal::sample` (`VirtualSignal.cpp:35`).  Note the
duty-cycle treatment of the Square shape: the source only snaps a
configured duty `<= 0` to `0.01` and `>= 1` to `0.99`; strictly interior
values — however extreme — are used as configured. -/
def waveformSample (s : WaveSettings) (t : F) : F :=
  if s.shape = WaveShape.dc ∨ feq s.frequency (F.num 0) = true then
    fadd s.offset s.amplitude
  else
    let cycles := fadd (fmul s.frequency t) s.phase
    let phase := wrapPhase cycles
    let value :=
      match s.shape with
      | .dc => s.amplitude
      | .sine =>
        fmul (liftNum transStand (fmul (fmul (F.num 2) (F.num piF32)) phase)) s.amplitude
      | .square =>
        let d0 := s.dutyCycle
        let d1 := if fle d0 (F.num 0) then F.num (1 / 100) else d0
        let d2 := if fge d1 (F.num 1) then F.num (99 / 100) else d1
        if flt phase d2 then s.amplitude else fneg s.amplitude
      | .triangle =>
        if flt phase (F.num (1 / 4)) then
          fmul (fmul (F.num 4) phase) s.amplitude
        else if flt phase (F.num (3 / 4)) then
          fmul (fsub (F.num 2) (fmul (F.num 4) phase)) s.amplitude
        else
          fmul (fadd (F.num (-4)) (fmul (F.num 4) phase)) s.amplitude
      | .sawtooth =>
        fmul (fsub (fmul (F.num 2) phase) (F.num 1)) s.amplitude
      | .noise => fmul noiseDraw s.amplitude
    fadd value s.offset

/-- `VariableBinding` (`VirtualSignal.h:78`); the source field `variable`
is named `varName` here (`variable` is a Lean keyword). -/
structure Binding where
  varName : String
  signalId : String
deriving DecidableEq

/-- A registered signal: the three concrete `VirtualSignal` subclasses
(`ConstantSignal`, `WaveformSignal`, `MathVirtualSignal`).  The `External`
kind is reserved in the source and has no class, hence no constructor
here.  For the Math variant, `compiled = none` models a signal whose
`configure` failed (the source then samples as NaN). -/
inductive SignalObj where
  | constant (id name units : String) (value : F)
  | waveform (id name units : String) (settings : WaveSettings)
  | math (id name units : String) (compiled : Option Expr) (bindings : List Binding)

/-- The `id()` accessor of `VirtualSignal`. -/
def sigIdOf : SignalObj → String
  | .constant i _ _ _ => i
  | .waveform i _ _ _ => i
  | .math i _ _ _ _ => i

/-- Model of `VirtualWorkspace::findSignalInternal`
(`VirtualWorkspace.cpp:29`): first entry with a matching id. -/
def findSignal (ws : List SignalObj) (sid : String) : Option SignalObj :=
  ws.find? (fun s => sigIdOf s = sid)

/-- The binding lookup of the resolver closure in
`MathVirtualSignal::sample` (`VirtualSignal.cpp:99`): the first binding
with a matching variable name yields its signal id; otherwise the raw
variable name itself is the signal id (implicit binding).  The
null-workspace guard of the source is unreachable through
`VirtualWorkspace::sampleSignal`, which always passes itself as context,
and is not modelled. -/
def resolveBinding (bindings : List Binding) (v : String) : String :=
  match bindings.find? (fun b => b.varName = v) with
  | some b => b.signalId
  | none => v

/-- Model of `VirtualWorkspace::sampleSignal` (`VirtualWorkspace.cpp:82`)
with explicit fuel for the recursion a Math signal performs back into the
workspace.  `fail` is the source's `return false` (unknown id, or the
signal's own sampling produced NaN); `diverge` marks fuel exhaustion — a
call the source would never return from consumes every fuel. -/
def sampleSignalF : Nat → List SignalObj → String → F → EvalRes
  | 0, _, _, _ => .diverge
  | fuel + 1, ws, sid, t =>
    match findSignal ws sid with
    | none => .fail
    | some (.constant _ _ _ v) =>
      if v.isnan then .fail else .ok v
    | some (.waveform _ _ _ st) =>
      let v := waveformSample st t
      if v.isnan then .fail else .ok v
    | some (.math _ _ _ compiled bnds) =>
      match compiled with
      | none => .fail
      | some e =>
        match evalNode (fun v => sampleSignalF fuel ws (resolveBinding bnds v) t) e with
        | .ok v => if v.isnan then .fail else .ok v
        | .fail => .fail
        | .diverge => .diverge

/-- Model of `VirtualSignal::sample` for a found signal, i.e. the value
the virtual call in `sampleSignal` produces before the workspace's
`isnan` check: `some v` is the returned float (`MathVirtualSignal::sample`
returns NaN when its evaluation hard-fails or it holds no compiled tree),
`none` is fuel exhaustion. -/
def signalSampleF (fuel : Nat) (ws : List SignalObj) : SignalObj → F → Option F
  | .constant _ _ _ v, _ => some v
  | .waveform _ _ _ st, t => some (waveformSample st t)
  | .math _ _ _ compiled bnds, t =>
    match compiled with
    | none => some F.nan
    | some e =>
      match evalNode (fun v => sampleSignalF fuel ws (resolveBinding bnds v) t) e with
      | .ok v => some v
      | .fail => some F.nan
      | .diverge => none

/-!  Series sampling (`VirtualWorkspace::sampleSignalSeries`,
`VirtualWorkspace.cpp:95`) and the instrument facades.  The C functions
return a bool and write through out-parameters; the result types below
carry, for each outcome, the exact final content of those out-parameters,
so that what a caller observes after a failed call is part of the model. -/

/-- The sample instant `startTime + interval * static_cast<float>(i)`. -/
def timeAt (t0 dt : F) (i : Nat) : F := fadd t0 (fmul dt (F.num (i : ℚ)))

/-- Outcome of `sampleSignalSeries`: `ok` is the completed vector; `fail`
and `diverge` carry the content the out-vector holds at that point — the
prefix of successfully taken samples (the source clears the vector on
entry and pushes each sample before it can fail on the next). -/
inductive SeriesRes where
  | ok (samples : List F)
  | fail (buf : List F)
  | diverge (buf : List F)
deriving DecidableEq

/-- The sampling loop shared (textually duplicated in the source) by
`sampleSignalSeries`, `Oscilloscope::capture` and `Multimeter::measure`:
sample index `i`, `rem` samples still to take, `acc` the vector content so
far. -/
def seriesLoop (fuel : Nat) (ws : List SignalObj) (sid : String) (t0 dt : F) :
    Nat → Nat → List F → SeriesRes
  | _, 0, acc => .ok acc
  | i, rem + 1, acc =>
    match sampleSignalF fuel ws sid (timeAt t0 dt i) with
    | .ok v => seriesLoop fuel ws sid t0 dt (i + 1) rem (acc ++ [v])
    | .fail => .fail acc
    | .diverge => .diverge acc

/-- Model of `VirtualWorkspace::sampleSignalSeries`
(`VirtualWorkspace.cpp:95`): clears the out-vector, then samples
`count` instants starting at index 0. -/
def sampleSignalSeriesF (fuel : Nat) (ws : List SignalObj) (sid : String)
    (t0 dt : F) (count : Nat) : SeriesRes :=
  seriesLoop fuel ws sid t0 dt 0 count []

/-- `OscilloscopeTraceConfig` (`Oscilloscope.h:11`). -/
structure TraceCfg where
  id : String
  signalId : String
  label : String
  enabled : Bool
deriving DecidableEq

/-- `OscilloscopeTraceData` (`Oscilloscope.h:24`). -/
structure TraceData where
  id : String
  label : String
  enabled : Bool
  samples : List F
deriving DecidableEq

/-- The error message prefix `"missing_signal_"` of `Oscilloscope::capture`
and `Multimeter::measure`. -/
def missingSignalMsg : String := "missing_signal_"

/-- Outcome of `Oscilloscope::capture`.  `invalid` is the
`"invalid_sampling"` early failure (the result object is untouched);
`missing` carries the error string and the traces already pushed into the
result when the failing sample aborted the capture; `ok` carries the
completed trace list.  The `result.sampleRate` field is set on entry and
not claim-relevant, so it is not modelled. -/
inductive CapRes where
  | invalid
  | missing (error : String) (built : List TraceData)
  | diverge (built : List TraceData)
  | ok (built : List TraceData)
deriving DecidableEq

/-- The per-trace loop of `Oscilloscope::capture` (`Oscilloscope.cpp:47`):
disabled traces are skipped entirely; an enabled trace runs the inner
sampling loop (identical to the series loop) into a local buffer that is
pushed as one completed `TraceData` only when every sample succeeded — on
failure the local buffer is discarded and the whole capture aborts with
the offending signal named. -/
def captureLoop (fuel : Nat) (ws : List SignalObj) (t0 dt : F) (count : Nat) :
    List TraceCfg → List TraceData → CapRes
  | [], built => .ok built
  | tr :: rest, built =>
    if tr.enabled = false then captureLoop fuel ws t0 dt count rest built
    else
      match seriesLoop fuel ws tr.signalId t0 dt 0 count [] with
      | .ok samples =>
        captureLoop fuel ws t0 dt count rest
          (built ++ [⟨tr.id, tr.label, tr.enabled, samples⟩])
      | .fail _ => .missing (missingSignalMsg ++ tr.signalId) built
      | .diverge _ => .diverge built

/-- Model of `Oscilloscope::capture` (`Oscilloscope.cpp:36`). -/
def captureF (fuel : Nat) (ws : List SignalObj) (cfgs : List TraceCfg)
    (t0 rate : F) (count : Nat) : CapRes :=
  if fle rate (F.num 0) = true ∨ count = 0 then .invalid
  else captureLoop fuel ws t0 (fdiv (F.num 1) rate) count cfgs []

/-- `MultimeterInputConfig` (`Multimeter.h:11`). -/
structure MInputCfg where
  id : String
  signalId : String
  label : String
  enabled : Bool
deriving DecidableEq

/-- `MultimeterMode` (`Multimeter.h:18`). -/
inductive MMode where
  | dc
  | acRms
  | minMode
  | maxMode
  | average
  | peakToPeak
deriving DecidableEq

/-- `MultimeterMeasurementResult` (`Multimeter.h:35`), without the fields
the source only echoes from the request. -/
structure MResult where
  inputId : String
  mode : MMode
  value : F
  minValue : F
  maxValue : F
deriving DecidableEq

/-- Outcome of `Multimeter::measure`: `err` carries the error string of a
`return false` path.  (On those paths the source has also already echoed
`inputId` and `mode` into the caller's result object; no claim concerns
that echo and it is not modelled.) -/
inductive MeasRes where
  | err (msg : String)
  | diverge
  | ok (r : MResult)
deriving DecidableEq

def unknownInputMsg : String := "unknown_input_"
def inputDisabledMsg : String := "input_disabled_"
def invalidSamplingMsg : String := "invalid_sampling"
def metricsFailedMsg : String := "metrics_failed"

/-- Model of `computeSeriesMetrics` (`Multimeter.cpp:50`): seeds min and
max with the first sample, then folds over the whole vector with `float`
comparisons; sums and squared sums accumulate in `double` (exact on the
modelled range).  Returns `(min, max, average, rms)`. -/
def computeSeriesMetrics : List F → Option (F × F × F × F)
  | [] => none
  | first :: rest =>
    let all := first :: rest
    let minV := all.foldl (fun acc v => if flt v acc then v else acc) first
    let maxV := all.foldl (fun acc v => if fgt v acc then v else acc) first
    let sum := all.foldl fadd (F.num 0)
    let sqSum := all.foldl (fun acc v => fadd acc (fmul v v)) (F.num 0)
    let n : F := F.num (all.length : ℚ)
    some (minV, maxV, fdiv sum n, fsqrt (fdiv sqSum n))

/-- The AC_RMS branch of `Multimeter::measure` (`Multimeter.cpp:119`):
root of the mean squared deviation from the series average — the RMS of
the mean-removed series, not the raw RMS. -/
def acRmsOf (samples : List F) (avg : F) : F :=
  fsqrt
    (fdiv (samples.foldl (fun acc v => fadd acc (fmul (fsub v avg) (fsub v avg))) (F.num 0))
      (F.num (samples.length : ℚ)))

/-- Model of `Multimeter::measure` (`Multimeter.cpp:70`). -/
def measureF (fuel : Nat) (ws : List SignalObj) (inputs : List MInputCfg)
    (inputId : String) (mode : MMode) (t0 rate : F) (count : Nat) : MeasRes :=
  match inputs.find? (fun i => i.id = inputId) with
  | none => .err (unknownInputMsg ++ inputId)
  | some sel =>
    if sel.enabled = false then .err (inputDisabledMsg ++ inputId)
    else if fle rate (F.num 0) = true ∨ count = 0 then .err invalidSamplingMsg
    else
      match seriesLoop fuel ws sel.signalId t0 (fdiv (F.num 1) rate) 0 count [] with
      | .fail _ => .err (missingSignalMsg ++ sel.signalId)
      | .diverge _ => .diverge
      | .ok samples =>
        match computeSeriesMetrics samples with
        | none => .err metricsFailedMsg
        | some (minV, maxV, avgV, _rmsV) =>
          let value :=
            match mode with
            | .dc => avgV
            | .acRms => acRmsOf samples avgV
            | .minMode => minV
            | .maxMode => maxV
            | .average => avgV
            | .peakToPeak => fsub maxV minV
          .ok ⟨inputId, mode, value, minV, maxV⟩

/-!  Function Generator (`FunctionGenerator.cpp`).  An `Output` holds a
`shared_ptr` to the `WaveformSignal` it created; through the Function
Generator API alone that pointer always aliases the workspace entry
registered under the output's id, and the model identifies the two: the
update path of `configureOutput` rewrites the waveform entry of that id
in the workspace, which is exactly what mutating the shared pointee does
in every state reachable through this facade. -/

/-- `FunctionGeneratorOutputConfig` (`FunctionGenerator.h:14`). -/
structure FGConfig where
  id : String
  name : String
  settings : WaveSettings
  enabled : Bool
  units : String
deriving DecidableEq

/-- `FunctionGenerator::Output` (`FunctionGenerator.h:31`), the
shared-pointer field replaced by the aliasing convention above. -/
structure FGOutput where
  id : String
  name : String
  enabled : Bool
  settings : WaveSettings
  units : String
deriving DecidableEq

/-- The Function Generator facade state together with the workspace
signal list it registers into. -/
structure FGState where
  outputs : List FGOutput
  ws : List SignalObj

/-- Model of `VirtualWorkspace::registerSignal`
(`VirtualWorkspace.cpp:49`): replaces the first entry with the same id in
place, otherwise appends.  (The source returns false only for a null
pointer, which cannot arise here.) -/
def registerSignalF : List SignalObj → SignalObj → List SignalObj
  | [], sig => [sig]
  | s :: rest, sig =>
    if sigIdOf s = sigIdOf sig then sig :: rest
    else s :: registerSignalF rest sig

def missingIdMsg : String := "missing_id"
def missingNameMsg : String := "missing_name"
def emptyMsg : String := ""
def unitVolt : String := "V"

/-- The mutation `setName` / `configure` / `setUnits` that the update path
of `configureOutput` applies to the shared waveform signal, reflected on
the workspace entry of that id (see the aliasing note above). -/
def updateWaveInWs (ws : List SignalObj) (cid cname cunits : String)
    (settings : WaveSettings) : List SignalObj :=
  ws.map fun s =>
    match s with
    | .waveform i _ _ _ => if i = cid then .waveform i cname cunits settings else s
    | _ => s

/-- Model of `FunctionGenerator::configureOutput`
(`FunctionGenerator.cpp:30`).  Returns (returned bool, error out-string,
resulting state).  The id and name emptiness checks run before the upsert
lookup, so they also gate the update path; units are defaulted to `"V"`
only on the create path. -/
def configureOutputF (st : FGState) (cfg : FGConfig) : Bool × String × FGState :=
  if cfg.id.length = 0 then (false, missingIdMsg, st)
  else if cfg.name.length = 0 then (false, missingNameMsg, st)
  else
    match st.outputs.find? (fun o => o.id = cfg.id) with
    | some _ =>
      let outputs := st.outputs.map fun o =>
        if o.id = cfg.id then
          { o with name := cfg.name, settings := cfg.settings,
                   enabled := cfg.enabled, units := cfg.units }
        else o
      (true, emptyMsg, ⟨outputs, updateWaveInWs st.ws cfg.id cfg.name cfg.units cfg.settings⟩)
    | none =>
      let u := if cfg.units.length = 0 then unitVolt else cfg.units
      let sig := SignalObj.waveform cfg.id cfg.name u cfg.settings
      (true, emptyMsg,
        ⟨st.outputs ++ [⟨cfg.id, cfg.name, cfg.enabled, cfg.settings, u⟩],
          registerSignalF st.ws sig⟩)

/-!  Claim-support constants. -/

def exprPowChain : String := "2^3^2"
def exprAddMul : String := "2 + 3 * 4"
def exprParenMul : String := "(2+3)*4"
def exprDivPowZero : String := "(1/0)^0"
def exprDivZero : String := "(1/0)"
def sumEmptyCall : String := "sum()"
def minName : String := "min"
def maxName : String := "max"
def avgName : String := "avg"
def meanName : String := "mean"
def sumName : String := "sum"

/-!  Theorems for the frozen claims. -/

/-- C3: the power operator parses right-associatively and binds tighter
than `*` and `/`, which bind tighter than `+` and `-`: `2^3^2` compiles to
`2^(3^2)` and evaluates to 512 (not 64), `2 + 3 * 4` compiles to
`2 + (3*4)` and evaluates to 14, and `(2+3)*4` evaluates to 20. -/
theorem c3_theorem :
    compile exprPowChain =
      Except.ok (Expr.binary '^' (.const (F.num 2))
        (Expr.binary '^' (.const (F.num 3)) (.const (F.num 2))))
    ∧ compileEval exprPowChain noVars = Except.ok (EvalRes.ok (F.num 512))
    ∧ compile exprAddMul =
      Except.ok (Expr.binary '+' (.const (F.num 2))
        (Expr.binary '*' (.const (F.num 3)) (.const (F.num 4))))
    ∧ compileEval exprAddMul noVars = Except.ok (EvalRes.ok (F.num 14))
    ∧ compile exprParenMul =
      Except.ok (Expr.binary '*'
        (Expr.binary '+' (.const (F.num 2)) (.const (F.num 3))) (.const (F.num 4)))
    ∧ compileEval exprParenMul noVars = Except.ok (EvalRes.ok (F.num 20)) :=
  ⟨rfl, rfl, rfl, rfl, rfl, rfl⟩

/-- C1 (counterexample): in the compiled expression `(1/0)^0` the division
by exact zero yields NaN with evaluation succeeding, but the enclosing
`^` node evaluates to 1, not NaN — C99/IEEE `pow(x, 0)` is 1 even for a
NaN base — so the NaN does not propagate through every enclosing
arithmetic node as the claim states. -/
theorem c1_counterexample :
    compileEval exprDivZero noVars = Except.ok (EvalRes.ok F.nan)
    ∧ compileEval exprDivPowZero noVars = Except.ok (EvalRes.ok (F.num 1))
    ∧ Except.ok (EvalRes.ok (F.num 1)) ≠
        (Except.ok (EvalRes.ok F.nan) : Except String EvalRes) :=
  ⟨rfl, rfl, by intro h; simp at h⟩

/-- C1 (amended): a division whose right operand evaluates to exactly
zero evaluates to NaN with success, an enclosing binary node over
successfully evaluated operands always succeeds (never a hard failure),
and NaN propagates through enclosing `+ - * /` and unary-minus nodes; for
`^` the C99/IEEE pow exceptions apply: a NaN operand still gives NaN
except that `pow(x, 0) = 1` and `pow(1, y) = 1` even when the other
operand is NaN. -/
theorem c1_theorem :
    (∀ (r : String → EvalRes) (L R : Expr) (v : F),
        evalNode r L = .ok v → evalNode r R = .ok (F.num 0) →
        evalNode r (.binary '/' L R) = .ok F.nan)
    ∧ (∀ (r : String → EvalRes) (op : Char) (L R : Expr) (vl vr : F),
        evalNode r L = .ok vl → evalNode r R = .ok vr →
        evalNode r (.binary op L R) = .ok (applyBinary op vl vr))
    ∧ (∀ (r : String → EvalRes) (L : Expr),
        evalNode r L = .ok F.nan → evalNode r (.unary '-' L) = .ok F.nan)
    ∧ (∀ x, applyBinary '+' F.nan x = F.nan ∧ applyBinary '+' x F.nan = F.nan
        ∧ applyBinary '-' F.nan x = F.nan ∧ applyBinary '-' x F.nan = F.nan
        ∧ applyBinary '*' F.nan x = F.nan ∧ applyBinary '*' x F.nan = F.nan
        ∧ applyBinary '/' F.nan x = F.nan ∧ applyBinary '/' x F.nan = F.nan)
    ∧ applyBinary '^' F.nan (F.num 0) = F.num 1
    ∧ applyBinary '^' (F.num 1) F.nan = F.num 1
    ∧ (∀ y, y ≠ F.num 0 → applyBinary '^' F.nan y = F.nan)
    ∧ (∀ x, x ≠ F.num 1 → applyBinary '^' x F.nan = F.nan) := by
  refine ⟨?_, ?_, ?_, ?_, rfl, rfl, ?_, ?_⟩
  · intro r L R v hL hR
    simp only [evalNode, hL, hR]
    rfl
  · intro r op L R vl vr hL hR
    simp only [evalNode, hL, hR]
  · intro r L hL
    simp only [evalNode, hL]
    rfl
  · intro x
    cases x <;> refine ⟨rfl, rfl, rfl, rfl, rfl, rfl, ?_, rfl⟩ <;>
      simp [applyBinary, feq, fdiv]
  · intro y hy
    cases y with
    | nan => rfl
    | num b =>
      have hb : ¬ b = 0 := by intro h; exact hy (by rw [h])
      simp [applyBinary, fpow, hb]
  · intro x hx
    cases x with
    | nan => rfl
    | num a =>
      have ha : ¬ a = 1 := by intro h; exact hx (by rw [h])
      simp [applyBinary, fpow, ha]

/-- C1 (witness): the amended theorem applied at `5 / 0`. -/
theorem c1_witness :
    evalNode noVars (Expr.binary '/' (.const (F.num 5)) (.const (F.num 0))) =
      .ok F.nan :=
  c1_theorem.1 noVars _ _ (F.num 5) rfl rfl

/-- C2 (counterexample): `sum()` — a variadic built-in called with zero
arguments — compiles and evaluates successfully to 0 instead of reporting
a hard failure: the source's `sum` branch has no emptiness check. -/
theorem c2_counterexample :
    compileEval sumEmptyCall noVars = Except.ok (EvalRes.ok (F.num 0))
    ∧ compileEval sumEmptyCall noVars ≠ Except.ok EvalRes.fail :=
  ⟨rfl, fun h => by
    have h0 : compileEval sumEmptyCall noVars = Except.ok (EvalRes.ok (F.num 0)) := rfl
    rw [h0] at h
    exact EvalRes.noConfusion (Except.ok.inj h)⟩

/-- C2 (amended): among the variadic built-ins called with zero
arguments, `min`, `max`, `avg` and `mean` make evaluation hard-fail, but
`sum` succeeds and returns 0. -/
theorem c2_theorem :
    ∀ (r : String → EvalRes),
      evalNode r (Expr.fn minName []) = .fail
      ∧ evalNode r (Expr.fn maxName []) = .fail
      ∧ evalNode r (Expr.fn avgName []) = .fail
      ∧ evalNode r (Expr.fn meanName []) = .fail
      ∧ evalNode r (Expr.fn sumName []) = .ok (F.num 0) :=
  fun _ => ⟨rfl, rfl, rfl, rfl, rfl⟩

/-- The duty cycle the claim asserts: the configured value clamped into
the interval `[0.01, 0.99]` (spec-side definition, for comparison with the
source behaviour). -/
def clampedDuty (d : ℚ) : ℚ := min (99 / 100) (max (1 / 100) d)

/-- The duty cycle the source actually uses (`VirtualSignal.cpp:51`):
only the degenerate ends are snapped — `<= 0` becomes `0.01`, `>= 1`
becomes `0.99` — and every strictly interior value is used as
configured. -/
def effDuty (d : ℚ) : ℚ :=
  if d ≤ 0 then 1 / 100 else if 1 ≤ d then 99 / 100 else d

/-- A square waveform configured with `dutyCycle = 0.005`: amplitude 1,
offset 0, frequency 1, phase 0.007. -/
def cxSquare : WaveSettings :=
  ⟨F.num 1, F.num 0, F.num 1, F.num (7 / 1000), F.num (5 / 1000), .square⟩

/-- C8 (counterexample): with `dutyCycle = 0.005` and wrapped phase
`0.007`, the claim's clamp to `[0.01, 0.99]` would give duty `0.01` and
value `+amplitude = 1` (since `0.007 < 0.01`), but the source samples
`-1`: a configured duty of 0.005 is used as 0.005, not clamped to
0.01. -/
theorem c8_counterexample :
    waveformSample cxSquare (F.num 0) = F.num (-1)
    ∧ ((7 : ℚ) / 1000) < clampedDuty (5 / 1000)
    ∧ F.num (-1) ≠ F.num 1 :=
  ⟨rfl, by decide, by decide⟩

/-- The duty chain of the Square branch (`VirtualSignal.cpp:51`) equals
`effDuty` of the configured rational duty. -/
theorem dutyChain_eq (duty : ℚ) :
    (if fge (if fle (F.num duty) (F.num 0) then F.num (1 / 100) else F.num duty) (F.num 1)
      then F.num (99 / 100)
      else if fle (F.num duty) (F.num 0) then F.num (1 / 100) else F.num duty)
    = F.num (effDuty duty) := by
  simp only [fle, fge, effDuty, decide_eq_true_eq]
  by_cases h0 : duty ≤ 0
  · norm_num [h0]
  · by_cases h1 : (1 : ℚ) ≤ duty
    · norm_num [h0, h1]
    · norm_num [h0, h1]

/-- C8 (amended): for a Square waveform with nonzero (finite) frequency
and finite settings, the duty used at sample time is the configured value
with only the degenerate ends snapped (`<= 0` to 0.01, `>= 1` to 0.99;
interior values such as 0.005 are used as configured), the core value is
`+amplitude` while the wrapped phase is below that duty and `-amplitude`
otherwise, and the final value adds the offset. -/
theorem c8_theorem :
    ∀ (amp off freq ph duty t : ℚ), freq ≠ 0 →
      waveformSample ⟨F.num amp, F.num off, F.num freq, F.num ph, F.num duty, .square⟩
          (F.num t) =
        F.num ((if (freq * t + ph) - ⌊freq * t + ph⌋ < effDuty duty
                then amp else -amp) + off) := by
  intro amp off freq ph duty t hfreq
  have hfeq : feq (F.num freq) (F.num 0) = false := by
    simp [feq]
    exact hfreq
  unfold waveformSample
  rw [if_neg (by simp [hfeq])]
  dsimp only [fmul, fadd, wrapPhase, fneg]
  rw [dutyChain_eq]
  by_cases hc : freq * t + ph - (⌊freq * t + ph⌋ : ℚ) < effDuty duty
  · have hb : flt (F.num (freq * t + ph - ⌊freq * t + ph⌋)) (F.num (effDuty duty)) = true := by
      simp only [flt, decide_eq_true_eq]
      exact hc
    simp only [hb, if_pos hc]
    rfl
  · have hb : flt (F.num (freq * t + ph - ⌊freq * t + ph⌋)) (F.num (effDuty duty)) = false := by
      simp only [flt, decide_eq_false_iff_not]
      exact hc
    simp only [hb, if_neg hc]
    rfl

/-- C8 (witness): the amended theorem applied at the spec's own example —
amplitude 1, offset 0, frequency 1, phase 0, duty 0.5, `t = 0` — which
samples `+1`. -/
theorem c8_witness :
    waveformSample ⟨F.num 1, F.num 0, F.num 1, F.num 0, F.num (1 / 2), .square⟩
        (F.num 0) =
      F.num ((if ((1 : ℚ) * 0 + 0) - ⌊(1 : ℚ) * 0 + 0⌋ < effDuty (1 / 2)
              then 1 else -1) + 0) :=
  c8_theorem 1 0 1 0 (1 / 2) 0 (by norm_num)

/-- A waveform configuration used by the Function Generator scenarios. -/
def fgWave : WaveSettings :=
  ⟨F.num 1, F.num 0, F.num 1, F.num 0, F.num (1 / 2), .sine⟩

/-- A Function Generator state holding one output `a` (name `x`) with its
registered backing signal. -/
def fgSt0 : FGState :=
  ⟨[⟨"a", "x", true, fgWave, "V"⟩], [.waveform ("a") ("x") ("V") fgWave]⟩

/-- A reconfiguration of the existing output `a` with an empty name. -/
def fgCfgEmptyName : FGConfig := ⟨"a", "", fgWave, true, "V"⟩

/-- A fresh-output configuration with empty units. -/
def fgCfgNew : FGConfig := ⟨"b", "gen", fgWave, true, ""⟩

/-- C9 (counterexample): an output with id `a` exists, yet
`configureOutput` with id `a` and an empty name fails with `missing_name`
and leaves the state unchanged — the id/name validation runs before the
upsert lookup, so it also gates the update path, contrary to the claim
that only the create path requires a non-empty name. -/
theorem c9_counterexample :
    (∃ o ∈ fgSt0.outputs, o.id = fgCfgEmptyName.id)
    ∧ configureOutputF fgSt0 fgCfgEmptyName = (false, missingNameMsg, fgSt0) := by
  constructor
  · exact ⟨⟨"a", "x", true, fgWave, "V"⟩, by simp [fgSt0], rfl⟩
  · rfl

/-- C9 (amended): `configureOutput` requires a non-empty id and a
non-empty name in every case — the checks run before the upsert lookup
and fail with `missing_id` / `missing_name` without touching the state
even when an output with the id exists.  When both are non-empty: if an
output with the id exists, it is mutated in place (name, settings,
enabled flag, units — with no unit defaulting) and the backing waveform
signal is reconfigured, returning true; otherwise a new Waveform signal
is created and registered with units defaulting to `"V"` when absent, and
a new output record is appended, returning true. -/
theorem c9_theorem :
    ∀ (st : FGState) (cfg : FGConfig),
      (cfg.id.length = 0 →
        configureOutputF st cfg = (false, missingIdMsg, st))
      ∧ (cfg.id.length ≠ 0 → cfg.name.length = 0 →
        configureOutputF st cfg = (false, missingNameMsg, st))
      ∧ (cfg.id.length ≠ 0 → cfg.name.length ≠ 0 →
        (∃ o ∈ st.outputs, o.id = cfg.id) →
        configureOutputF st cfg =
          (true, emptyMsg,
            ⟨st.outputs.map (fun o =>
              if o.id = cfg.id then
                { o with name := cfg.name, settings := cfg.settings,
                         enabled := cfg.enabled, units := cfg.units }
              else o),
             updateWaveInWs st.ws cfg.id cfg.name cfg.units cfg.settings⟩))
      ∧ (cfg.id.length ≠ 0 → cfg.name.length ≠ 0 →
        (∀ o ∈ st.outputs, o.id ≠ cfg.id) →
        configureOutputF st cfg =
          (true, emptyMsg,
            ⟨st.outputs ++
              [⟨cfg.id, cfg.name, cfg.enabled, cfg.settings,
                if cfg.units.length = 0 then unitVolt else cfg.units⟩],
             registerSignalF st.ws
               (SignalObj.waveform cfg.id cfg.name
                 (if cfg.units.length = 0 then unitVolt else cfg.units)
                 cfg.settings)⟩)) := by
  intro st cfg
  refine ⟨?_, ?_, ?_, ?_⟩
  · intro h
    simp [configureOutputF, h]
  · intro h hn
    simp [configureOutputF, h, hn]
  · intro h hn hex
    obtain ⟨o, ho, hoid⟩ := hex
    have hsome : (st.outputs.find? (fun o => o.id = cfg.id)).isSome := by
      rw [List.find?_isSome]
      exact ⟨o, ho, by simp [hoid]⟩
    obtain ⟨o2, hfind⟩ := Option.isSome_iff_exists.mp hsome
    simp [configureOutputF, h, hn, hfind]
  · intro h hn hall
    have hfind : st.outputs.find? (fun o => o.id = cfg.id) = none := by
      rw [List.find?_eq_none]
      intro x hx
      simp [hall x hx]
    simp [configureOutputF, h, hn, hfind]

/-- C9 (witness): the amended theorem's create path applied to the empty
state with the fresh configuration `b` (empty units): the output is
appended and the registered signal's units default to `"V"`. -/
theorem c9_witness :
    configureOutputF ⟨[], []⟩ fgCfgNew =
      (true, emptyMsg,
        ⟨[⟨fgCfgNew.id, fgCfgNew.name, fgCfgNew.enabled, fgCfgNew.settings,
            if fgCfgNew.units.length = 0 then unitVolt else fgCfgNew.units⟩],
          registerSignalF []
            (SignalObj.waveform fgCfgNew.id fgCfgNew.name
              (if fgCfgNew.units.length = 0 then unitVolt else fgCfgNew.units)
              fgCfgNew.settings)⟩) := by
  have h := (c9_theorem ⟨[], []⟩ fgCfgNew).2.2.2 (by decide) (by decide)
    (by intro o ho; simp at ho)
  simpa using h

/-- `VirtualWorkspace::sampleSignal` decomposes as the source does: look
the id up, let the found signal sample itself, then fail exactly on a NaN
result (`return !isnan(out)`). -/
theorem sampleSignal_unfold (fuel : Nat) (ws : List SignalObj) (sid : String) (t : F) :
    sampleSignalF (fuel + 1) ws sid t =
      (match findSignal ws sid with
      | none => .fail
      | some s =>
        match signalSampleF fuel ws s t with
        | none => .diverge
        | some v => if v.isnan then .fail else .ok v) := by
  cases hf : findSignal ws sid with
  | none => simp [sampleSignalF, hf]
  | some s =>
    cases s with
    | constant i n u v => simp [sampleSignalF, signalSampleF, hf]
    | waveform i n u st => simp [sampleSignalF, signalSampleF, hf]
    | math i n u c bnds =>
      cases c with
      | none => simp [sampleSignalF, signalSampleF, hf, F.isnan]
      | some e =>
        cases he : evalNode (fun v => sampleSignalF fuel ws (resolveBinding bnds v) t) e with
        | ok v => simp [sampleSignalF, signalSampleF, hf, he]
        | fail => simp [sampleSignalF, signalSampleF, hf, he, F.isnan]
        | diverge => simp [sampleSignalF, signalSampleF, hf, he]

/-- C4: workspace sampling fails exactly when the id is not registered or
the found signal's own sampling produced NaN; in every other (returning)
case it succeeds with exactly the sampled non-NaN value.  (The fuel
argument `fuel + 1` only rules out the fuel model's artificial immediate
exhaustion; divergence is a third outcome, distinct from failure, and is
covered by C10.) -/
theorem c4_theorem :
    ∀ (fuel : Nat) (ws : List SignalObj) (sid : String) (t : F),
      (sampleSignalF (fuel + 1) ws sid t = .fail ↔
        findSignal ws sid = none ∨
          ∃ s v, findSignal ws sid = some s ∧ signalSampleF fuel ws s t = some v ∧
            v.isnan = true)
      ∧ (∀ v : F, sampleSignalF (fuel + 1) ws sid t = .ok v ↔
          ∃ s, findSignal ws sid = some s ∧ signalSampleF fuel ws s t = some v ∧
            v.isnan = false) := by
  intro fuel ws sid t
  rw [sampleSignal_unfold]
  cases hf : findSignal ws sid with
  | none => simp
  | some s =>
    cases hs : signalSampleF fuel ws s t with
    | none => simp [hs]
    | some v =>
      cases hn : v.isnan with
      | true => simp [hs, hn]
      | false =>
        constructor
        · simp [hs, hn]
        · intro w
          simp [hs, hn]
          rintro rfl
          exact hn

/-- The per-index success predicate of a sampling loop: entry `j` of `vs`
is the successful sample at index `i + j`. -/
def seriesOkAt (fuel : Nat) (ws : List SignalObj) (sid : String) (t0 dt : F)
    (i : Nat) (vs : List F) : Prop :=
  ∀ j v, vs.get? j = some v →
    sampleSignalF fuel ws sid (timeAt t0 dt (i + j)) = .ok v

theorem seriesOkAt_nil (fuel : Nat) (ws : List SignalObj) (sid : String)
    (t0 dt : F) (i : Nat) : seriesOkAt fuel ws sid t0 dt i [] := by
  intro j v h
  simp at h

theorem seriesOkAt_cons (fuel : Nat) (ws : List SignalObj) (sid : String)
    (t0 dt : F) (i : Nat) (v : F) (vs : List F) :
    seriesOkAt fuel ws sid t0 dt i (v :: vs) ↔
      sampleSignalF fuel ws sid (timeAt t0 dt i) = .ok v
      ∧ seriesOkAt fuel ws sid t0 dt (i + 1) vs := by
  constructor
  · intro h
    constructor
    · have := h 0 v (by simp)
      simpa using this
    · intro j w hw
      have := h (j + 1) w (by simpa using hw)
      have harith : i + (j + 1) = i + 1 + j := by omega
      rwa [harith] at this
  · rintro ⟨h0, hrest⟩ j w hw
    cases j with
    | zero =>
      simp at hw
      subst hw
      simpa using h0
    | succ j =>
      simp at hw
      have := hrest j w (by simpa using hw)
      have harith : i + 1 + j = i + (j + 1) := by omega
      rwa [harith] at this

/-- Accumulator normalization of the sampling loop: the vector content at
any outcome is the entry content followed by what a loop started empty
would have produced. -/
theorem seriesLoop_acc (fuel : Nat) (ws : List SignalObj) (sid : String)
    (t0 dt : F) :
    ∀ (rem i : Nat) (acc : List F),
      seriesLoop fuel ws sid t0 dt i rem acc =
        (match seriesLoop fuel ws sid t0 dt i rem [] with
        | .ok l => .ok (acc ++ l)
        | .fail b => .fail (acc ++ b)
        | .diverge b => .diverge (acc ++ b)) := by
  intro rem
  induction rem with
  | zero => intro i acc; simp [seriesLoop]
  | succ n ih =>
    intro i acc
    show (match sampleSignalF fuel ws sid (timeAt t0 dt i) with
      | .ok v => seriesLoop fuel ws sid t0 dt (i + 1) n (acc ++ [v])
      | .fail => .fail acc
      | .diverge => .diverge acc) = _
    cases hsample : sampleSignalF fuel ws sid (timeAt t0 dt i) with
    | ok v =>
      dsimp only
      rw [ih (i + 1) (acc ++ [v])]
      have hstep : seriesLoop fuel ws sid t0 dt i (n + 1) [] =
          seriesLoop fuel ws sid t0 dt (i + 1) n [v] := by
        show (match sampleSignalF fuel ws sid (timeAt t0 dt i) with
          | .ok v => seriesLoop fuel ws sid t0 dt (i + 1) n ([] ++ [v])
          | .fail => .fail []
          | .diverge => .diverge []) = _
        rw [hsample]
        rfl
      rw [hstep, ih (i + 1) [v]]
      cases seriesLoop fuel ws sid t0 dt (i + 1) n [] with
      | ok l => simp
      | fail b => simp
      | diverge b => simp
    | fail => simp [seriesLoop, hsample]
    | diverge => simp [seriesLoop, hsample]

/-- Success characterization of the empty-started sampling loop. -/
theorem seriesLoop_ok_iff (fuel : Nat) (ws : List SignalObj) (sid : String)
    (t0 dt : F) :
    ∀ (rem i : Nat) (l : List F),
      seriesLoop fuel ws sid t0 dt i rem [] = .ok l ↔
        l.length = rem ∧ seriesOkAt fuel ws sid t0 dt i l := by
  intro rem
  induction rem with
  | zero =>
    intro i l
    constructor
    · intro h
      simp [seriesLoop] at h
      subst h
      exact ⟨rfl, seriesOkAt_nil fuel ws sid t0 dt i⟩
    · rintro ⟨hl, _⟩
      have : l = [] := List.eq_nil_of_length_eq_zero hl
      subst this
      simp [seriesLoop]
  | succ n ih =>
    intro i l
    constructor
    · intro h
      rw [show seriesLoop fuel ws sid t0 dt i (n + 1) [] =
          (match sampleSignalF fuel ws sid (timeAt t0 dt i) with
          | .ok v => seriesLoop fuel ws sid t0 dt (i + 1) n [v]
          | .fail => .fail []
          | .diverge => .diverge []) from rfl] at h
      cases hsample : sampleSignalF fuel ws sid (timeAt t0 dt i) with
      | ok v =>
        rw [hsample] at h
        dsimp only at h
        rw [seriesLoop_acc fuel ws sid t0 dt n (i + 1) [v]] at h
        cases hrun : seriesLoop fuel ws sid t0 dt (i + 1) n [] with
        | ok l2 =>
          rw [hrun] at h
          simp at h
          subst h
          obtain ⟨hlen, hok⟩ := (ih (i + 1) l2).mp hrun
          refine ⟨by simp [hlen], ?_⟩
          rw [seriesOkAt_cons]
          exact ⟨hsample, hok⟩
        | fail b => rw [hrun] at h; simp at h
        | diverge b => rw [hrun] at h; simp at h
      | fail => rw [hsample] at h; simp at h
      | diverge => rw [hsample] at h; simp at h
    · rintro ⟨hlen, hok⟩
      cases l with
      | nil => simp at hlen
      | cons v l2 =>
        rw [seriesOkAt_cons] at hok
        obtain ⟨h0, hrest⟩ := hok
        have hlen2 : l2.length = n := by simpa using hlen
        have hrun : seriesLoop fuel ws sid t0 dt (i + 1) n [] = .ok l2 :=
          (ih (i + 1) l2).mpr ⟨hlen2, hrest⟩
        show (match sampleSignalF fuel ws sid (timeAt t0 dt i) with
          | .ok v => seriesLoop fuel ws sid t0 dt (i + 1) n ([] ++ [v])
          | .fail => .fail []
          | .diverge => .diverge []) = _
        rw [h0]
        dsimp only
        simp only [List.nil_append]
        rw [seriesLoop_acc fuel ws sid t0 dt n (i + 1) [v], hrun]
        rfl

/-- Failure characterization of the empty-started sampling loop: the
buffer holds exactly the successful prefix, and the sample right after it
is the failing one. -/
theorem seriesLoop_fail_iff (fuel : Nat) (ws : List SignalObj) (sid : String)
    (t0 dt : F) :
    ∀ (rem i : Nat) (b : List F),
      seriesLoop fuel ws sid t0 dt i rem [] = .fail b ↔
        b.length < rem ∧ seriesOkAt fuel ws sid t0 dt i b
        ∧ sampleSignalF fuel ws sid (timeAt t0 dt (i + b.length)) = .fail := by
  intro rem
  induction rem with
  | zero =>
    intro i b
    constructor
    · intro h
      simp [seriesLoop] at h
    · rintro ⟨hl, _⟩
      omega
  | succ n ih =>
    intro i b
    constructor
    · intro h
      rw [show seriesLoop fuel ws sid t0 dt i (n + 1) [] =
          (match sampleSignalF fuel ws sid (timeAt t0 dt i) with
          | .ok v => seriesLoop fuel ws sid t0 dt (i + 1) n [v]
          | .fail => .fail []
          | .diverge => .diverge []) from rfl] at h
      cases hsample : sampleSignalF fuel ws sid (timeAt t0 dt i) with
      | ok v =>
        rw [hsample] at h
        dsimp only at h
        rw [seriesLoop_acc fuel ws sid t0 dt n (i + 1) [v]] at h
        cases hrun : seriesLoop fuel ws sid t0 dt (i + 1) n [] with
        | ok l2 => rw [hrun] at h; simp at h
        | fail b2 =>
          rw [hrun] at h
          simp at h
          subst h
          obtain ⟨hlen, hok, hfail⟩ := (ih (i + 1) b2).mp hrun
          refine ⟨by simp; omega, ?_, ?_⟩
          · rw [seriesOkAt_cons]
            exact ⟨hsample, hok⟩
          · have harith : i + (v :: b2).length = i + 1 + b2.length := by
              simp
              omega
            rw [harith]
            exact hfail
        | diverge b2 => rw [hrun] at h; simp at h
      | fail =>
        rw [hsample] at h
        dsimp only at h
        simp at h
        subst h
        refine ⟨by simp, seriesOkAt_nil fuel ws sid t0 dt i, by simpa using hsample⟩
      | diverge => rw [hsample] at h; dsimp only at h; simp at h
    · rintro ⟨hlen, hok, hfail⟩
      show (match sampleSignalF fuel ws sid (timeAt t0 dt i) with
        | .ok v => seriesLoop fuel ws sid t0 dt (i + 1) n ([] ++ [v])
        | .fail => .fail []
        | .diverge => .diverge []) = _
      cases b with
      | nil =>
        simp only [List.length_nil, Nat.add_zero] at hfail
        rw [hfail]
      | cons v b2 =>
        rw [seriesOkAt_cons] at hok
        obtain ⟨h0, hrest⟩ := hok
        rw [h0]
        dsimp only
        simp only [List.nil_append]
        have hlen2 : b2.length < n := by simp at hlen; omega
        have hfail2 : sampleSignalF fuel ws sid (timeAt t0 dt (i + 1 + b2.length)) = .fail := by
          have harith : i + 1 + b2.length = i + (v :: b2).length := by simp; omega
          rw [harith]
          exact hfail
        have hrun : seriesLoop fuel ws sid t0 dt (i + 1) n [] = .fail b2 :=
          (ih (i + 1) b2).mpr ⟨hlen2, hrest, hfail2⟩
        rw [seriesLoop_acc fuel ws sid t0 dt n (i + 1) [v], hrun]
        rfl

/-- A square wave whose value is 0 on the first half of each cycle
(amplitude 1, offset −1) and −2 on the second half. -/
def failSquare : WaveSettings :=
  ⟨F.num 1, F.num (-1), F.num 1, F.num 0, F.num (1 / 2), .square⟩

/-- A workspace where sampling the Math signal `m` (`1/s`) succeeds at
`t = 0.5` and fails (division by zero, hence NaN) at `t = 1`. -/
def seriesWs : List SignalObj :=
  [.waveform ("s") ("sq") ("V") failSquare,
   .math ("m") ("inv") ("V")
     (some (Expr.binary '/' (.const (F.num 1)) (.var ("s")))) []]

/-- C5 (counterexample): a two-sample series over `m` starting at `0.5`
with interval `0.5` fails on the second sample, but the out-vector is
left holding the partial sequence `[-0.5]` — the first, successful
sample — not an empty one: the source clears the vector on entry and
pushes each sample before the next can fail, with no cleanup on
failure. -/
theorem c5_counterexample :
    sampleSignalSeriesF 4 seriesWs ("m") (F.num (1 / 2)) (F.num (1 / 2)) 2 =
      SeriesRes.fail [F.num (-1 / 2)]
    ∧ SeriesRes.fail [F.num (-1 / 2)] ≠ SeriesRes.fail ([] : List F) :=
  ⟨rfl, by simp⟩

/-- C5 (amended): `sampleSeries` fails as soon as any individual sample
fails and no completed sequence is returned, but the failure is not
atomic with respect to the output vector: on failure the vector holds
exactly the successful prefix — entry `j` is the successful sample at
index `j` for every `j` below the failing index, which is the vector's
length.  On success the vector holds all `count` samples. -/
theorem c5_theorem :
    ∀ (fuel : Nat) (ws : List SignalObj) (sid : String) (t0 dt : F) (count : Nat),
      (∀ l, sampleSignalSeriesF fuel ws sid t0 dt count = .ok l ↔
        l.length = count ∧
          ∀ j v, l.get? j = some v →
            sampleSignalF fuel ws sid (timeAt t0 dt j) = .ok v)
      ∧ (∀ b, sampleSignalSeriesF fuel ws sid t0 dt count = .fail b ↔
        b.length < count ∧
          (∀ j v, b.get? j = some v →
            sampleSignalF fuel ws sid (timeAt t0 dt j) = .ok v)
          ∧ sampleSignalF fuel ws sid (timeAt t0 dt b.length) = .fail) := by
  intro fuel ws sid t0 dt count
  constructor
  · intro l
    rw [show sampleSignalSeriesF fuel ws sid t0 dt count =
        seriesLoop fuel ws sid t0 dt 0 count [] from rfl]
    rw [seriesLoop_ok_iff]
    simp only [seriesOkAt, Nat.zero_add]
  · intro b
    rw [show sampleSignalSeriesF fuel ws sid t0 dt count =
        seriesLoop fuel ws sid t0 dt 0 count [] from rfl]
    rw [seriesLoop_fail_iff]
    simp only [seriesOkAt, Nat.zero_add]

/-- What a completed capture trace satisfies relative to its
configuration: identity and label copied, marked enabled, and exactly
`count` samples, entry `j` being the successful sample at instant `j`. -/
def traceMatches (fuel : Nat) (ws : List SignalObj) (t0 dt : F) (count : Nat)
    (cfg : TraceCfg) (td : TraceData) : Prop :=
  td.id = cfg.id ∧ td.label = cfg.label ∧ td.enabled = true
  ∧ td.samples.length = count
  ∧ ∀ j v, td.samples.get? j = some v →
      sampleSignalF fuel ws cfg.signalId (timeAt t0 dt j) = .ok v

/-- Success elimination for the capture loop: the result extends the
accumulator with one completed trace per enabled configuration, in
order. -/
theorem captureLoop_ok (fuel : Nat) (ws : List SignalObj) (t0 dt : F)
    (count : Nat) :
    ∀ (cfgs : List TraceCfg) (built ts : List TraceData),
      captureLoop fuel ws t0 dt count cfgs built = .ok ts →
      ∃ rest, ts = built ++ rest ∧
        List.Forall₂ (traceMatches fuel ws t0 dt count)
          (cfgs.filter (fun c => c.enabled)) rest := by
  intro cfgs
  induction cfgs with
  | nil =>
    intro built ts h
    simp [captureLoop] at h
    exact ⟨[], by simp [h.symm], by simp⟩
  | cons tr rest ih =>
    intro built ts h
    by_cases he : tr.enabled = false
    · rw [show captureLoop fuel ws t0 dt count (tr :: rest) built =
          captureLoop fuel ws t0 dt count rest built from by
        show (if tr.enabled = false then _ else _) = _
        rw [if_pos he]] at h
      obtain ⟨r, hr, hf⟩ := ih built ts h
      exact ⟨r, hr, by simp [List.filter, he, hf]⟩
    · have he2 : tr.enabled = true := by
        cases htr : tr.enabled
        · exact absurd htr he
        · rfl
      rw [show captureLoop fuel ws t0 dt count (tr :: rest) built =
          (match seriesLoop fuel ws tr.signalId t0 dt 0 count [] with
          | .ok samples =>
            captureLoop fuel ws t0 dt count rest
              (built ++ [⟨tr.id, tr.label, tr.enabled, samples⟩])
          | .fail _ => .missing (missingSignalMsg ++ tr.signalId) built
          | .diverge _ => .diverge built) from by
        show (if tr.enabled = false then _ else _) = _
        rw [if_neg (by simp [he2])]] at h
      cases hrun : seriesLoop fuel ws tr.signalId t0 dt 0 count [] with
      | ok samples =>
        rw [hrun] at h
        obtain ⟨r, hr, hf⟩ := ih _ ts h
        obtain ⟨hlen, hok⟩ := (seriesLoop_ok_iff fuel ws tr.signalId t0 dt count 0 samples).mp hrun
        refine ⟨⟨tr.id, tr.label, tr.enabled, samples⟩ :: r, by simp [hr], ?_⟩
        rw [show (tr :: rest).filter (fun c => c.enabled) =
            tr :: rest.filter (fun c => c.enabled) from by simp [List.filter, he2]]
        refine List.Forall₂.cons ?_ hf
        exact ⟨rfl, rfl, he2, hlen, fun j v hv => by
          have := hok j v hv
          simpa using this⟩
      | fail b => rw [hrun] at h; simp at h
      | diverge b => rw [hrun] at h; simp at h

/-- Failure elimination for the capture loop: the error names an enabled
configuration's signal, and every trace in the result vector beyond the
accumulator is complete (`count` samples) — no partial trace is ever
pushed. -/
theorem captureLoop_missing (fuel : Nat) (ws : List SignalObj) (t0 dt : F)
    (count : Nat) :
    ∀ (cfgs : List TraceCfg) (built : List TraceData) (err : String)
      (bs : List TraceData),
      captureLoop fuel ws t0 dt count cfgs built = .missing err bs →
      (∃ cfg ∈ cfgs, cfg.enabled = true ∧ err = missingSignalMsg ++ cfg.signalId)
      ∧ ∀ td ∈ bs, td ∈ built ∨ td.samples.length = count := by
  intro cfgs
  induction cfgs with
  | nil =>
    intro built err bs h
    simp [captureLoop] at h
  | cons tr rest ih =>
    intro built err bs h
    by_cases he : tr.enabled = false
    · rw [show captureLoop fuel ws t0 dt count (tr :: rest) built =
          captureLoop fuel ws t0 dt count rest built from by
        show (if tr.enabled = false then _ else _) = _
        rw [if_pos he]] at h
      obtain ⟨⟨cfg, hcfg, hen, herr⟩, hcomp⟩ := ih built err bs h
      exact ⟨⟨cfg, by simp [hcfg], hen, herr⟩, hcomp⟩
    · have he2 : tr.enabled = true := by
        cases htr : tr.enabled
        · exact absurd htr he
        · rfl
      rw [show captureLoop fuel ws t0 dt count (tr :: rest) built =
          (match seriesLoop fuel ws tr.signalId t0 dt 0 count [] with
          | .ok samples =>
            captureLoop fuel ws t0 dt count rest
              (built ++ [⟨tr.id, tr.label, tr.enabled, samples⟩])
          | .fail _ => .missing (missingSignalMsg ++ tr.signalId) built
          | .diverge _ => .diverge built) from by
        show (if tr.enabled = false then _ else _) = _
        rw [if_neg (by simp [he2])]] at h
      cases hrun : seriesLoop fuel ws tr.signalId t0 dt 0 count [] with
      | ok samples =>
        rw [hrun] at h
        obtain ⟨⟨cfg, hcfg, hen, herr⟩, hcomp⟩ := ih _ err bs h
        obtain ⟨hlen, _⟩ := (seriesLoop_ok_iff fuel ws tr.signalId t0 dt count 0 samples).mp hrun
        refine ⟨⟨cfg, by simp [hcfg], hen, herr⟩, ?_⟩
        intro td htd
        rcases hcomp td htd with hin | hfull
        · rcases List.mem_append.mp hin with hb | hnew
          · exact Or.inl hb
          · refine Or.inr ?_
            have : td = ⟨tr.id, tr.label, tr.enabled, samples⟩ := by simpa using hnew
            rw [this]
            exact hlen
        · exact Or.inr hfull
      | fail b =>
        rw [hrun] at h
        simp at h
        obtain ⟨herr, hbs⟩ := h
        refine ⟨⟨tr, by simp, he2, herr.symm⟩, ?_⟩
        intro td htd
        exact Or.inl (hbs ▸ htd)
      | diverge b => rw [hrun] at h; simp at h

/-- C6: capture fails (`invalid_sampling`) whenever `sampleRate <= 0` or
`sampleCount == 0`; on success the result holds, in order, one trace per
enabled configuration and none for a disabled one, each with exactly
`sampleCount` samples, sample `j` taken at `startTime + j * (1/sampleRate)`;
and when a required sample is unresolvable the capture fails with an error
naming the offending enabled signal while every trace in the result
vector is complete — no partial trace is returned. -/
theorem c6_theorem :
    ∀ (fuel : Nat) (ws : List SignalObj) (cfgs : List TraceCfg) (t0 rate : F)
      (count : Nat),
      (fle rate (F.num 0) = true ∨ count = 0 →
        captureF fuel ws cfgs t0 rate count = .invalid)
      ∧ (∀ ts, captureF fuel ws cfgs t0 rate count = .ok ts →
          List.Forall₂ (traceMatches fuel ws t0 (fdiv (F.num 1) rate) count)
            (cfgs.filter (fun c => c.enabled)) ts)
      ∧ (∀ err bs, captureF fuel ws cfgs t0 rate count = .missing err bs →
          (∃ cfg ∈ cfgs, cfg.enabled = true ∧ err = missingSignalMsg ++ cfg.signalId)
          ∧ ∀ td ∈ bs, td.samples.length = count) := by
  intro fuel ws cfgs t0 rate count
  refine ⟨?_, ?_, ?_⟩
  · intro h
    unfold captureF
    rw [if_pos h]
  · intro ts h
    by_cases hc : fle rate (F.num 0) = true ∨ count = 0
    · unfold captureF at h
      rw [if_pos hc] at h
      simp at h
    · unfold captureF at h
      rw [if_neg hc] at h
      obtain ⟨rest, hts, hf⟩ := captureLoop_ok fuel ws t0 (fdiv (F.num 1) rate) count cfgs [] ts h
      simp at hts
      rwa [hts]
  · intro err bs h
    by_cases hc : fle rate (F.num 0) = true ∨ count = 0
    · unfold captureF at h
      rw [if_pos hc] at h
      simp at h
    · unfold captureF at h
      rw [if_neg hc] at h
      obtain ⟨hname, hcomp⟩ :=
        captureLoop_missing fuel ws t0 (fdiv (F.num 1) rate) count cfgs [] err bs h
      refine ⟨hname, ?_⟩
      intro td htd
      rcases hcomp td htd with hin | hfull
      · simp at hin
      · exact hfull

/-- A workspace holding the constant signal `c` of value 5 and one
enabled oscilloscope trace viewing it. -/
def capWs : List SignalObj := [.constant ("c") ("c") ("V") (F.num 5)]

def capCfgs : List TraceCfg := [⟨"t1", "c", "lbl", true⟩]

/-- C6 (witness): the success clause applied to a concrete two-sample
capture of the constant signal — the single enabled trace carries exactly
the two samples. -/
theorem c6_witness :
    List.Forall₂ (traceMatches 1 capWs (F.num 0) (fdiv (F.num 1) (F.num 1)) 2)
      (capCfgs.filter (fun c => c.enabled))
      [⟨"t1", "lbl", true, [F.num 5, F.num 5]⟩] :=
  (c6_theorem 1 capWs capCfgs (F.num 0) (F.num 1) 2).2.1 _ rfl

/-- A successful workspace sample never carries NaN: the source returns
true only after the `isnan` check. -/
theorem sampleOk_not_nan (fuel : Nat) (ws : List SignalObj) (sid : String)
    (t : F) (v : F) (h : sampleSignalF fuel ws sid t = .ok v) :
    v.isnan = false := by
  cases fuel with
  | zero => simp [sampleSignalF] at h
  | succ n =>
    rw [sampleSignal_unfold] at h
    cases hf : findSignal ws sid with
    | none => rw [hf] at h; simp at h
    | some s =>
      rw [hf] at h
      dsimp only at h
      cases hs : signalSampleF n ws s t with
      | none => rw [hs] at h; simp at h
      | some w =>
        rw [hs] at h
        dsimp only at h
        cases hn : w.isnan with
        | true => rw [hn] at h; simp at h
        | false =>
          rw [hn] at h
          simp at h
          rw [← h]
          exact hn

/-- The C min fold over exact rationals is the rational `min` fold. -/
theorem foldl_fmin_map (qs : List ℚ) :
    ∀ a : ℚ, (qs.map F.num).foldl (fun acc v => if flt v acc then v else acc) (F.num a) =
      F.num (qs.foldl min a) := by
  induction qs with
  | nil => intro a; rfl
  | cons q rest ih =>
    intro a
    have hstep : (if flt (F.num q) (F.num a) then F.num q else F.num a) = F.num (min a q) := by
      simp only [flt]
      by_cases hlt : q < a
      · simp [hlt, min_eq_right (le_of_lt hlt)]
      · simp [hlt, min_eq_left (not_lt.mp hlt)]
    simp only [List.map_cons, List.foldl_cons, hstep, ih]

/-- The C max fold over exact rationals is the rational `max` fold. -/
theorem foldl_fmax_map (qs : List ℚ) :
    ∀ a : ℚ, (qs.map F.num).foldl (fun acc v => if fgt v acc then v else acc) (F.num a) =
      F.num (qs.foldl max a) := by
  induction qs with
  | nil => intro a; rfl
  | cons q rest ih =>
    intro a
    have hstep : (if fgt (F.num q) (F.num a) then F.num q else F.num a) = F.num (max a q) := by
      simp only [fgt, flt]
      by_cases hgt : a < q
      · simp [hgt, max_eq_right (le_of_lt hgt)]
      · simp [hgt, max_eq_left (not_lt.mp hgt)]
    simp only [List.map_cons, List.foldl_cons, hstep, ih]

/-- The C running sum over exact rationals. -/
theorem foldl_fadd_map (qs : List ℚ) :
    ∀ a : ℚ, (qs.map F.num).foldl fadd (F.num a) = F.num (a + qs.sum) := by
  induction qs with
  | nil => intro a; simp
  | cons q rest ih =>
    intro a
    rw [List.map_cons, List.foldl_cons]
    rw [show fadd (F.num a) (F.num q) = F.num (a + q) from rfl]
    rw [ih (a + q)]
    congr 1
    rw [List.sum_cons]
    ring

/-- The C running squared sum over exact rationals. -/
theorem foldl_fsq_map (qs : List ℚ) :
    ∀ a : ℚ, (qs.map F.num).foldl (fun acc v => fadd acc (fmul v v)) (F.num a) =
      F.num (a + (qs.map (fun q => q ^ 2)).sum) := by
  induction qs with
  | nil => intro a; simp
  | cons q rest ih =>
    intro a
    rw [List.map_cons, List.foldl_cons]
    rw [show fadd (F.num a) (fmul (F.num q) (F.num q)) = F.num (a + q * q) from rfl]
    rw [ih (a + q * q)]
    congr 1
    rw [List.map_cons, List.sum_cons]
    ring

/-- The C running sum of squared deviations over exact rationals. -/
theorem foldl_fdev_map (qs : List ℚ) (c : ℚ) :
    ∀ a : ℚ,
      (qs.map F.num).foldl
        (fun acc v => fadd acc (fmul (fsub v (F.num c)) (fsub v (F.num c)))) (F.num a) =
      F.num (a + (qs.map (fun q => (q - c) ^ 2)).sum) := by
  induction qs with
  | nil => intro a; simp
  | cons q rest ih =>
    intro a
    rw [List.map_cons, List.foldl_cons]
    rw [show fadd (F.num a) (fmul (fsub (F.num q) (F.num c)) (fsub (F.num q) (F.num c))) =
        F.num (a + (q - c) * (q - c)) from rfl]
    rw [ih (a + (q - c) * (q - c))]
    congr 1
    rw [List.map_cons, List.sum_cons]
    ring

/-- A list of floats with no NaN is a list of exact rationals. -/
theorem all_num_of_not_nan :
    ∀ (l : List F), (∀ v ∈ l, v.isnan = false) →
      ∃ qs : List ℚ, l = qs.map F.num := by
  intro l
  induction l with
  | nil => intro _; exact ⟨[], rfl⟩
  | cons v rest ih =>
    intro h
    obtain ⟨qs, hqs⟩ := ih (fun w hw => h w (List.mem_cons_of_mem v hw))
    have hv := h v (List.mem_cons_self v rest)
    cases v with
    | nan => simp [F.isnan] at hv
    | num q => exact ⟨q :: qs, by simp [hqs]⟩

/-- C7: a successful Multimeter measurement over the sampled series
reports, per mode: DC and AVERAGE the arithmetic average of the raw
series, MIN the minimum, MAX the maximum, PEAK_TO_PEAK max minus min, and
AC_RMS the root of the mean squared deviation from the series average
(the RMS of the mean-removed series, not the raw RMS); and the result
carries the raw series' minimum and maximum regardless of the mode.  The
series is the `count` workspace samples of the selected input's signal at
`startTime + j*(1/sampleRate)`. -/
theorem c7_theorem :
    ∀ (fuel : Nat) (ws : List SignalObj) (inputs : List MInputCfg)
      (inputId : String) (mode : MMode) (t0 rate : F) (count : Nat) (res : MResult),
      measureF fuel ws inputs inputId mode t0 rate count = .ok res →
      ∃ (sel : MInputCfg) (q0 : ℚ) (qs : List ℚ),
        inputs.find? (fun i => i.id = inputId) = some sel
        ∧ (q0 :: qs).length = count
        ∧ (∀ j v, (q0 :: qs).get? j = some v →
            sampleSignalF fuel ws sel.signalId (timeAt t0 (fdiv (F.num 1) rate) j) =
              .ok (F.num v))
        ∧ res.minValue = F.num (qs.foldl min q0)
        ∧ res.maxValue = F.num (qs.foldl max q0)
        ∧ res.value = F.num (
            match mode with
            | .dc => (q0 :: qs).sum / ((q0 :: qs).length : ℚ)
            | .average => (q0 :: qs).sum / ((q0 :: qs).length : ℚ)
            | .minMode => qs.foldl min q0
            | .maxMode => qs.foldl max q0
            | .peakToPeak => qs.foldl max q0 - qs.foldl min q0
            | .acRms =>
              ratSqrt (((q0 :: qs).map
                (fun q => (q - (q0 :: qs).sum / ((q0 :: qs).length : ℚ)) ^ 2)).sum /
                ((q0 :: qs).length : ℚ))) := by
  intro fuel ws inputs inputId mode t0 rate count res h
  unfold measureF at h
  cases hfind : inputs.find? (fun i => i.id = inputId) with
  | none => rw [hfind] at h; simp at h
  | some sel =>
    rw [hfind] at h
    dsimp only at h
    by_cases hen : sel.enabled = false
    · rw [if_pos hen] at h
      simp at h
    rw [if_neg hen] at h
    by_cases hval : fle rate (F.num 0) = true ∨ count = 0
    · rw [if_pos hval] at h
      simp at h
    rw [if_neg hval] at h
    have hcount : count ≠ 0 := fun hc => hval (Or.inr hc)
    cases hrun : seriesLoop fuel ws sel.signalId t0 (fdiv (F.num 1) rate) 0 count [] with
    | fail b => rw [hrun] at h; simp at h
    | diverge b => rw [hrun] at h; simp at h
    | ok samples =>
      rw [hrun] at h
      dsimp only at h
      obtain ⟨hlen, hok⟩ :=
        (seriesLoop_ok_iff fuel ws sel.signalId t0 (fdiv (F.num 1) rate) count 0 samples).mp hrun
      simp only [seriesOkAt, Nat.zero_add] at hok
      have hnonan : ∀ v ∈ samples, v.isnan = false := by
        intro v hv
        obtain ⟨j, hj⟩ := List.mem_iff_get?.mp hv
        exact sampleOk_not_nan fuel ws sel.signalId _ v (hok j v hj)
      obtain ⟨l, hl⟩ := all_num_of_not_nan samples hnonan
      cases l with
      | nil =>
        rw [hl] at hlen
        simp at hlen
        exact absurd hlen.symm hcount
      | cons q0 qs =>
        subst hl
        refine ⟨sel, q0, qs, rfl, by simpa using hlen, ?_, ?_⟩
        · intro j v hv
          apply hok j (F.num v)
          rw [List.get?_map, hv]
          rfl
        · -- reduce the metrics computation over the exact rational series
          rw [show ((q0 :: qs).map F.num) = F.num q0 :: (qs.map F.num) from rfl] at h
          dsimp only [computeSeriesMetrics] at h
          have hminstep :
              (if flt (F.num q0) (F.num q0) then F.num q0 else F.num q0) = F.num q0 := by
            simp
          have hmaxstep :
              (if fgt (F.num q0) (F.num q0) then F.num q0 else F.num q0) = F.num q0 := by
            simp
          have hmin :
              (F.num q0 :: qs.map F.num).foldl
                (fun acc v => if flt v acc then v else acc) (F.num q0) =
                F.num (qs.foldl min q0) := by
            rw [List.foldl_cons, hminstep, foldl_fmin_map]
          have hmax :
              (F.num q0 :: qs.map F.num).foldl
                (fun acc v => if fgt v acc then v else acc) (F.num q0) =
                F.num (qs.foldl max q0) := by
            rw [List.foldl_cons, hmaxstep, foldl_fmax_map]
          have hsum :
              (F.num q0 :: qs.map F.num).foldl fadd (F.num 0) =
                F.num ((q0 :: qs).sum) := by
            rw [show (F.num q0 :: qs.map F.num) = (q0 :: qs).map F.num from rfl,
              foldl_fadd_map]
            simp
          have hlenq : ((F.num q0 :: qs.map F.num).length : ℚ) = ((q0 :: qs).length : ℚ) := by
            simp
          have hlenne : ((qs.length : ℚ) + 1) ≠ 0 := by positivity
          have havg :
              fdiv (F.num ((q0 :: qs).sum)) (F.num ((q0 :: qs).length : ℚ)) =
                F.num ((q0 :: qs).sum / ((q0 :: qs).length : ℚ)) := by
            simp [fdiv, hlenne]
          rw [hmin, hmax, hsum, hlenq, havg] at h
          -- the AC-RMS branch folds squared deviations from the average
          have hdev :
              acRmsOf (F.num q0 :: qs.map F.num)
                (F.num ((q0 :: qs).sum / ((q0 :: qs).length : ℚ))) =
                F.num (ratSqrt (((q0 :: qs).map
                  (fun q => (q - (q0 :: qs).sum / ((q0 :: qs).length : ℚ)) ^ 2)).sum /
                  ((q0 :: qs).length : ℚ))) := by
            unfold acRmsOf
            rw [show (F.num q0 :: qs.map F.num) = (q0 :: qs).map F.num from rfl,
              foldl_fdev_map]
            simp only [List.length_map, zero_add]
            rw [show ((q0 :: qs).length : ℚ) = (((q0 :: qs).length : ℕ) : ℚ) from rfl]
            simp [fdiv, fsqrt, liftNum, hlenne]
          rw [hdev] at h
          injection h with h2
          rw [← h2]
          exact ⟨rfl, rfl, by cases mode <;> rfl⟩

def mmWs : List SignalObj := [.constant ("c") ("c") ("V") (F.num 5)]
def mmInputs : List MInputCfg := [⟨"i", "c", "lbl", true⟩]
def mmId : String := "i"
def mmRes : MResult := ⟨"i", .dc, F.num 5, F.num 5, F.num 5⟩

/-- C7 (witness): the theorem applied to a concrete DC measurement of the
constant-5 signal over two samples, which succeeds with value 5 and raw
min and max 5. -/
theorem c7_witness :
    ∃ (sel : MInputCfg) (q0 : ℚ) (qs : List ℚ),
      mmInputs.find? (fun i => i.id = mmId) = some sel
      ∧ (q0 :: qs).length = 2
      ∧ (∀ j v, (q0 :: qs).get? j = some v →
          sampleSignalF 1 mmWs sel.signalId (timeAt (F.num 0) (fdiv (F.num 1) (F.num 1)) j) =
            .ok (F.num v))
      ∧ mmRes.minValue = F.num (qs.foldl min q0)
      ∧ mmRes.maxValue = F.num (qs.foldl max q0)
      ∧ mmRes.value = F.num (
          match MMode.dc with
          | .dc => (q0 :: qs).sum / ((q0 :: qs).length : ℚ)
          | .average => (q0 :: qs).sum / ((q0 :: qs).length : ℚ)
          | .minMode => qs.foldl min q0
          | .maxMode => qs.foldl max q0
          | .peakToPeak => qs.foldl max q0 - qs.foldl min q0
          | .acRms =>
            ratSqrt (((q0 :: qs).map
              (fun q => (q - (q0 :: qs).sum / ((q0 :: qs).length : ℚ)) ^ 2)).sum /
              ((q0 :: qs).length : ℚ))) :=
  c7_theorem 1 mmWs mmInputs mmId MMode.dc (F.num 0) (F.num 1) 2 mmRes rfl

mutual

/-- The free variables of an expression, in evaluation order. -/
def varsOf : Expr → List String
  | .const _ => []
  | .var n => [n]
  | .unary _ e => varsOf e
  | .binary _ l r => varsOf l ++ varsOf r
  | .fn _ args => varsOfList args

/-- The free variables of an argument list. -/
def varsOfList : List Expr → List String
  | [] => []
  | e :: rest => varsOf e ++ varsOfList rest

end

/-- The signal ids a signal's sampling resolves through: for a Math
signal, each free variable of its compiled expression mapped through the
binding table (or used as an implicit id); empty for the other kinds. -/
def refsOf : SignalObj → List String
  | .math _ _ _ (some e) bnds => (varsOf e).map (resolveBinding bnds)
  | _ => []

mutual

/-- Evaluation diverges only when the resolver diverges on some free
variable of the expression. -/
theorem evalNode_diverge_var :
    ∀ (r : String → EvalRes) (e : Expr),
      evalNode r e = .diverge → ∃ v ∈ varsOf e, r v = .diverge
  | r, .const c => by
    intro h
    simp [evalNode] at h
  | r, .var n => by
    intro h
    exact ⟨n, by simp [varsOf], h⟩
  | r, .unary op e => by
    intro h
    simp only [evalNode] at h
    cases he : evalNode r e with
    | ok v => rw [he] at h; simp at h
    | fail => rw [he] at h; simp at h
    | diverge =>
      obtain ⟨v, hv, hr⟩ := evalNode_diverge_var r e he
      exact ⟨v, by simp [varsOf, hv], hr⟩
  | r, .binary op l rr => by
    intro h
    simp only [evalNode] at h
    cases hl : evalNode r l with
    | fail => rw [hl] at h; simp at h
    | diverge =>
      obtain ⟨v, hv, hr⟩ := evalNode_diverge_var r l hl
      exact ⟨v, by simp [varsOf, hv], hr⟩
    | ok vl =>
      rw [hl] at h
      dsimp only at h
      cases hr2 : evalNode r rr with
      | ok vr => rw [hr2] at h; simp at h
      | fail => rw [hr2] at h; simp at h
      | diverge =>
        obtain ⟨v, hv, hrd⟩ := evalNode_diverge_var r rr hr2
        exact ⟨v, by simp [varsOf, hv], hrd⟩
  | r, .fn name args => by
    intro h
    simp only [evalNode] at h
    cases ha : evalArgs r args with
    | ok vs =>
      rw [ha] at h
      dsimp only at h
      cases hef : evaluateFunction name vs with
      | some w => rw [hef] at h; simp at h
      | none => rw [hef] at h; simp at h
    | fail => rw [ha] at h; simp at h
    | diverge =>
      obtain ⟨v, hv, hr⟩ := evalArgs_diverge_var r args ha
      exact ⟨v, by simp [varsOf, hv], hr⟩

/-- Argument evaluation diverges only when the resolver diverges on some
free variable of the argument list. -/
theorem evalArgs_diverge_var :
    ∀ (r : String → EvalRes) (args : List Expr),
      evalArgs r args = .diverge → ∃ v ∈ varsOfList args, r v = .diverge
  | r, [] => by
    intro h
    simp [evalArgs] at h
  | r, e :: rest => by
    intro h
    simp only [evalArgs] at h
    cases he : evalNode r e with
    | fail => rw [he] at h; simp at h
    | diverge =>
      obtain ⟨v, hv, hr⟩ := evalNode_diverge_var r e he
      exact ⟨v, by simp [varsOfList, hv], hr⟩
    | ok v =>
      rw [he] at h
      dsimp only at h
      cases hrest : evalArgs r rest with
      | ok vs => rw [hrest] at h; simp at h
      | fail => rw [hrest] at h; simp at h
      | diverge =>
        obtain ⟨w, hw, hr⟩ := evalArgs_diverge_var r rest hrest
        exact ⟨w, by simp [varsOfList, hw], hr⟩

end

/-- Termination of workspace sampling under a rank function that strictly
decreases along Math-signal references: with fuel above the target's
rank, sampling never exhausts the fuel. -/
theorem sample_terminates_of_ranked (ws : List SignalObj) (rank : String → Nat)
    (hrank : ∀ s ∈ ws, ∀ r ∈ refsOf s, rank r < rank (sigIdOf s)) :
    ∀ (n : Nat) (sid : String) (t : F) (fuel : Nat),
      rank sid ≤ n → rank sid < fuel → sampleSignalF fuel ws sid t ≠ .diverge := by
  intro n
  induction n using Nat.strong_induction_on with
  | _ n ih =>
    intro sid t fuel hle hfuel
    cases fuel with
    | zero => omega
    | succ f =>
      rw [sampleSignal_unfold]
      cases hf : findSignal ws sid with
      | none => simp
      | some s =>
        dsimp only
        cases hs : signalSampleF f ws s t with
        | some v =>
          dsimp only
          cases v.isnan <;> simp
        | none =>
          exfalso
          have hmem : s ∈ ws := List.mem_of_find?_eq_some hf
          have hsid : sigIdOf s = sid := by
            have := List.find?_some hf
            simpa using this
          cases s with
          | constant i nm u v => simp [signalSampleF] at hs
          | waveform i nm u st => simp [signalSampleF] at hs
          | math i nm u c bnds =>
            cases c with
            | none => simp [signalSampleF] at hs
            | some e =>
              simp only [signalSampleF] at hs
              cases he : evalNode
                  (fun v => sampleSignalF f ws (resolveBinding bnds v) t) e with
              | ok v => rw [he] at hs; simp at hs
              | fail => rw [he] at hs; simp at hs
              | diverge =>
                obtain ⟨v, hv, hdv⟩ := evalNode_diverge_var _ e he
                have href : resolveBinding bnds v ∈ refsOf (.math i nm u (some e) bnds) := by
                  simp only [refsOf]
                  exact List.mem_map_of_mem _ hv
                have hlt : rank (resolveBinding bnds v) < rank sid := by
                  have := hrank _ hmem _ href
                  rwa [hsid] at this
                exact (ih (rank (resolveBinding bnds v)) (by omega)
                  (resolveBinding bnds v) t f le_rfl (by omega)) hdv

/-- C10 (amended): workspace sampling terminates whenever the Math-signal
reference graph admits a rank function that strictly decreases along
every reference (in particular whenever it is acyclic and finite):
sampling with any fuel above the target id's rank never exhausts the
fuel.  (The counterexample shows the complementary half: a self-referring
binding makes sampling consume every fuel, i.e. the source recurses
without bound — there is no cycle guard.) -/
theorem c10_theorem :
    ∀ (ws : List SignalObj) (rank : String → Nat),
      (∀ s ∈ ws, ∀ r ∈ refsOf s, rank r < rank (sigIdOf s)) →
      ∀ (sid : String) (t : F) (fuel : Nat), rank sid < fuel →
        sampleSignalF fuel ws sid t ≠ .diverge :=
  fun ws rank hrank sid t fuel hfuel =>
    sample_terminates_of_ranked ws rank hrank (rank sid) sid t fuel le_rfl hfuel

/-- A workspace with a single Math signal `m` whose only variable is
bound back to `m` itself. -/
def cycWs : List SignalObj :=
  [.math ("m") ("m") ("V") (some (Expr.var ("x"))) [⟨"x", "m"⟩]]

/-- Sampling the self-referential signal consumes every fuel. -/
theorem cycSample_diverge :
    ∀ fuel : Nat, sampleSignalF fuel cycWs ("m") (F.num 0) = .diverge := by
  intro fuel
  induction fuel with
  | zero => rfl
  | succ n ih =>
    calc sampleSignalF (n + 1) cycWs ("m") (F.num 0)
        = (match sampleSignalF n cycWs ("m") (F.num 0) with
          | .ok v => if v.isnan then .fail else .ok v
          | .fail => .fail
          | .diverge => .diverge) := rfl
      _ = .diverge := by rw [ih]

/-- C10 (counterexample): sampling a Math signal whose binding refers
back to the signal being sampled does not terminate — in the fuel model,
no fuel at all suffices for the self-referential workspace, because
`MathVirtualSignal::sample` re-enters `VirtualWorkspace::sampleSignal`
with no cycle guard. -/
theorem c10_counterexample :
    ¬ ∃ fuel : Nat, sampleSignalF fuel cycWs ("m") (F.num 0) ≠ .diverge := by
  rintro ⟨fuel, hne⟩
  exact hne (cycSample_diverge fuel)

/-- A two-signal acyclic workspace: Math signal `m` reads constant `c`. -/
def chainWs : List SignalObj :=
  [.constant ("c") ("c") ("V") (F.num 2),
   .math ("m") ("m") ("V") (some (Expr.var ("x"))) [⟨"x", "c"⟩]]

/-- The rank function witnessing that `chainWs` is acyclic. -/
def chainRank : String → Nat := fun id => if id = ("m" : String) then 1 else 0

/-- C10 (witness): the amended theorem applied to the concrete acyclic
workspace — sampling `m` with fuel 2 does not exhaust the fuel. -/
theorem c10_witness :
    sampleSignalF 2 chainWs ("m") (F.num 0) ≠ .diverge :=
  c10_theorem chainWs chainRank
    (by
      intro s hs r hr
      simp only [chainWs, List.mem_cons, List.not_mem_nil, or_false] at hs
      rcases hs with rfl | rfl
      · simp [refsOf] at hr
      · simp [refsOf, varsOf, varsOfList, resolveBinding] at hr
        subst hr
        simp [chainRank, sigIdOf])
    ("m") (F.num 0) 2 (by simp [chainRank])

end MiniLabo
